import Mathlib

/-!
Verification of the financial reconciliation and billing-schedule engine of the
puerta-abierta backend.  The Lean definitions below are a shallow embedding of
the Python sources:

  * `apps/backend/app/services/lease_schedule.py`
      (`_add_months_clamped`, `build_monthly_schedule_dates`,
       `ensure_monthly_lease_schedule`)
  * `apps/backend/app/api/routers/owner_statements.py`
      (`_expense_amount_pyg`, `_generic_amount_pyg`, `_build_statement_breakdown`)
  * `apps/backend/app/services/pricing.py` (`normalize_fee_lines`)

Modelling conventions:
  * monetary amounts are rationals (`ℚ`); Python's `round(x, 2)` is modelled by
    `round2` (round to the nearest 1/100);
  * records coming back from the row store are modelled as typed structures
    whose fields mirror the dictionary keys read by the code; a missing or
    falsy optional value is modelled by `Option` or by the empty string,
    matching how the code collapses them with `or` defaults;
  * the external row store is modelled as in-memory lists of rows;
    `list_rows(table, filters, limit, order_by, ascending)` is modelled as
    filter + stable sort on the order key + truncation to `limit`;
  * `HTTPException(400, detail)` is modelled by `ApiError.badRequest detail`.
-/

/-- Python `round(q, 2)`: round to the nearest multiple of 1/100. -/
def round2 (q : ℚ) : ℚ := (round (q * 100) : ℤ) / 100

/-- `calendar.monthrange(year, month)[1]`: number of days of the month,
Gregorian leap rules. -/
def daysInMonth (year month : Nat) : Nat :=
  if month = 2 then
    if year % 4 = 0 ∧ (year % 100 ≠ 0 ∨ year % 400 = 0) then 29 else 28
  else if month = 4 ∨ month = 6 ∨ month = 9 ∨ month = 11 then 30
  else 31

/-- A calendar date, mirroring Python `datetime.date`. -/
structure Date where
  year : Nat
  month : Nat
  day : Nat

deriving DecidableEq, Repr, Inhabited

/-- Python dates compare lexicographically on (year, month, day). -/
def Date.lt (a b : Date) : Prop :=
  a.year < b.year ∨ (a.year = b.year ∧
    (a.month < b.month ∨ (a.month = b.month ∧ a.day < b.day)))

def Date.le (a b : Date) : Prop :=
  a.year < b.year ∨ (a.year = b.year ∧
    (a.month < b.month ∨ (a.month = b.month ∧ a.day ≤ b.day)))

instance : LT Date := ⟨Date.lt⟩

instance : LE Date := ⟨Date.le⟩

instance Date.decLt : ∀ a b : Date, Decidable (a < b) := fun a b =>
  decidable_of_iff (a.year < b.year ∨ (a.year = b.year ∧
    (a.month < b.month ∨ (a.month = b.month ∧ a.day < b.day)))) Iff.rfl

instance Date.decLe : ∀ a b : Date, Decidable (a ≤ b) := fun a b =>
  decidable_of_iff (a.year < b.year ∨ (a.year = b.year ∧
    (a.month < b.month ∨ (a.month = b.month ∧ a.day ≤ b.day)))) Iff.rfl

/-- A date is a valid Gregorian calendar date (as `datetime.date` enforces). -/
def Date.valid (d : Date) : Prop :=
  1 ≤ d.year ∧ d.year ≤ 9999 ∧ 1 ≤ d.month ∧ d.month ≤ 12 ∧
    1 ≤ d.day ∧ d.day ≤ daysInMonth d.year d.month

instance Date.decValid : ∀ d : Date, Decidable d.valid := fun d => by
  unfold Date.valid; infer_instance

/-- Split a character list on `'-'` (the groups between dashes). -/
def splitDash : List Char → List (List Char)
  | [] => [[]]
  | c :: cs =>
    if c = '-' then [] :: splitDash cs
    else
      match splitDash cs with
      | [] => [[c]]
      | g :: gs => (c :: g) :: gs

/-- The numeric value of a decimal digit character. -/
def digitVal (c : Char) : Option Nat :=
  if '0' ≤ c ∧ c ≤ '9' then some (c.toNat - '0'.toNat) else none

/-- Parse a non-empty all-digit character group as a natural number. -/
def digitsToNat? (cs : List Char) : Option Nat :=
  cs.foldl (fun acc c => acc.bind fun n => (digitVal c).map fun v => n * 10 + v) (some 0)

/-- `date.fromisoformat` for the strict `YYYY-MM-DD` format (the shape every
date handled by the embedded code is stored in). -/
def parseIsoDate (s : String) : Option Date :=
  match splitDash s.toList with
  | [ys, ms, ds] =>
    if ys.length = 4 ∧ ms.length = 2 ∧ ds.length = 2 then
      match digitsToNat? ys, digitsToNat? ms, digitsToNat? ds with
      | some y, some m, some d =>
        if 1 ≤ y ∧ y ≤ 9999 ∧ 1 ≤ m ∧ m ≤ 12 ∧ 1 ≤ d ∧ d ≤ daysInMonth y m then
          some ⟨y, m, d⟩
        else none
      | _, _, _ => none
    else none
  | _ => none

/-- Left-pad the decimal representation of `n` with zeros to `width` digits. -/
def padNat (width n : Nat) : String :=
  let s := toString n
  (List.replicate (width - s.length) '0').asString ++ s

/-- `date.isoformat()`. -/
def Date.toIso (d : Date) : String :=
  padNat 4 d.year ++ "-" ++ padNat 2 d.month ++ "-" ++ padNat 2 d.day

/-- `fastapi.HTTPException` as raised by the embedded handlers. -/
inductive ApiError where
  | badRequest (detail : String)

deriving DecidableEq, Repr

/-- `_parse_iso_date` from `lease_schedule.py`. -/
def parse_iso_date (value : String) (field_name : String) : Except ApiError Date :=
  match parseIsoDate value with
  | some d => Except.ok d
  | none => Except.error (.badRequest (field_name ++ " must be an ISO date (YYYY-MM-DD)."))

def DEFAULT_COLLECTION_SCHEDULE_MONTHS : Nat := 12

def MAX_COLLECTION_SCHEDULE_MONTHS : Nat := 120

/-- `_add_months_clamped` from `lease_schedule.py`. -/
def add_months_clamped (anchor : Date) (offset : Nat) : Date :=
  let month_index := (anchor.month - 1) + offset
  let year := anchor.year + month_index / 12
  let month := month_index % 12 + 1
  { year := year, month := month, day := min anchor.day (daysInMonth year month) }

/-- The string parsed as the schedule anchor: `first_collection_due_date or
starts_on` (Python truthiness: an empty string falls back to `starts_on`). -/
def effective_anchor (starts_on : String) (first_collection_due_date : Option String) : String :=
  match first_collection_due_date with
  | some s => if s = "" then starts_on else s
  | none => starts_on

/-- `if ends_on:` — an absent or empty `ends_on` selects the months branch. -/
def effective_ends (ends_on : Option String) : Option String :=
  match ends_on with
  | some s => if s = "" then none else some s
  | none => none

/-- `collection_schedule_months or DEFAULT_COLLECTION_SCHEDULE_MONTHS`
(Python truthiness: `0` falls back to the default). -/
def months_arg (collection_schedule_months : Option Int) : Int :=
  match collection_schedule_months with
  | some n => if n = 0 then (DEFAULT_COLLECTION_SCHEDULE_MONTHS : Int) else n
  | none => (DEFAULT_COLLECTION_SCHEDULE_MONTHS : Int)

/-- The loop `for offset in range(MAX): due = add(anchor, offset); if due > end:
break; append due` — equivalently, take the prefix of offsets whose date is
still `≤ end_date`. -/
def schedule_window (due_anchor end_date : Date) : List Date :=
  ((List.range MAX_COLLECTION_SCHEDULE_MONTHS).map
    (fun offset => add_months_clamped due_anchor offset)).takeWhile
    (fun d => decide (d ≤ end_date))

/-- `build_monthly_schedule_dates` from `lease_schedule.py`.  Python truthiness:
an empty-string `first_collection_due_date` or `ends_on` behaves like `None`,
and `collection_schedule_months == 0` falls back to the default. -/
def build_monthly_schedule_dates
    (starts_on : String)
    (first_collection_due_date : Option String)
    (ends_on : Option String)
    (collection_schedule_months : Option Int) :
    Except ApiError (List Date) := do
  let starts_on_date ← parse_iso_date starts_on "starts_on"
  let due_anchor ← parse_iso_date (effective_anchor starts_on first_collection_due_date)
    "first_collection_due_date"
  match effective_ends ends_on with
  | some es => do
    let end_date ← parse_iso_date es "ends_on"
    let schedule := schedule_window due_anchor end_date
    if schedule.isEmpty then
      -- Keep at least one due date when ends_on is earlier than starts/anchor.
      pure [if starts_on_date ≤ due_anchor then due_anchor else starts_on_date]
    else
      pure schedule
  | none => do
    let months0 : Int := months_arg collection_schedule_months
    if months0 < 1 then
      Except.error (.badRequest "collection_schedule_months must be >= 1.")
    else
      let months := min months0 (MAX_COLLECTION_SCHEDULE_MONTHS : Int)
      pure ((List.range months.toNat).map (fun offset => add_months_clamped due_anchor offset))

/-- `year * 12 + (month - 1)`: the linear month index used to reason about
month arithmetic. -/
def monthIdx (d : Date) : Nat := d.year * 12 + (d.month - 1)

deriving instance DecidableEq for Except

/-! ### Pricing: `normalize_fee_lines` from `pricing.py` -/

/-- Remove leading whitespace, then trailing whitespace (Python `str.strip`),
over character lists. -/
def dropTrailWs : List Char → List Char
  | [] => []
  | c :: cs =>
    match dropTrailWs cs with
    | [] => if c.isWhitespace then [] else [c]
    | r => c :: r

def stripChars (cs : List Char) : List Char :=
  dropTrailWs (cs.dropWhile Char.isWhitespace)

/-- Python `str.strip()`. -/
def pyStrip (s : String) : String := String.mk (stripChars s.data)

/-- Python `str.replace("_", " ")` (single-character replacement). -/
def pyReplaceUnderscore (s : String) : String :=
  String.mk (s.data.map (fun c => if c = '_' then ' ' else c))

/-- Python `str.title()`: a letter is uppercased when the previous character
is not a letter, lowercased otherwise. -/
def pyTitleChars : List Char → Bool → List Char
  | [], _ => []
  | c :: cs, prevCased =>
    (if c.isAlpha then (if prevCased then c.toLower else c.toUpper) else c)
      :: pyTitleChars cs c.isAlpha

def pyTitle (s : String) : String := String.mk (pyTitleChars s.data false)

/-- A fee-line dictionary as consumed by `normalize_fee_lines`:  each field is
the value found at the corresponding key (`none` models a missing/unparsable
value; the booleans model Python truthiness of the stored value). -/
structure FeeLine where
  fee_type : Option String
  label : Option String
  amount : Option ℚ
  is_refundable : Bool
  is_recurring : Bool
  sort_order : Option Int

deriving DecidableEq, Repr

/-- `_to_float` from `pricing.py`: unparsable or negative values become `0`. -/
def to_float (v : Option ℚ) : ℚ :=
  match v with
  | none => 0
  | some amount => if amount < 0 then 0 else amount

/-- `_to_int` from `pricing.py`: unparsable or non-positive values fall back. -/
def to_int (v : Option Int) (fallback : Int) : Int :=
  match v with
  | none => fallback
  | some parsed => if 0 < parsed then parsed else fallback

/-- The normalization loop body of `normalize_fee_lines` (`index` is the
1-based `enumerate` counter used as the `sort_order` fallback). -/
def normalize_pass : List FeeLine → Int → List FeeLine
  | [], _ => []
  | line :: rest, index =>
    let fee_type := pyStrip (line.fee_type.getD "")
    if fee_type = "" then normalize_pass rest (index + 1)
    else
      let label0 := match line.label with
        | some l => if l = "" then pyTitle (pyReplaceUnderscore fee_type) else l
        | none => pyTitle (pyReplaceUnderscore fee_type)
      let label1 := pyStrip label0
      let label := if label1 = "" then fee_type else label1
      let is_recurring := if fee_type = "monthly_rent" then true else line.is_recurring
      { fee_type := some fee_type
        label := some label
        amount := some (round2 (to_float line.amount))
        is_refundable := line.is_refundable
        is_recurring := is_recurring
        sort_order := some (to_int line.sort_order index) } :: normalize_pass rest (index + 1)

/-- The sort key `(int(item.get("sort_order") or 0), item.get("fee_type") or "")`. -/
def fee_key_le (x y : FeeLine) : Prop :=
  x.sort_order.getD 0 < y.sort_order.getD 0 ∨
    (x.sort_order.getD 0 = y.sort_order.getD 0 ∧ x.fee_type.getD "" ≤ y.fee_type.getD "")

instance fee_key_le_dec : DecidableRel fee_key_le := fun x y => by
  unfold fee_key_le; infer_instance

instance fee_key_le_total : IsTotal FeeLine fee_key_le := by
  constructor
  intro a b
  unfold fee_key_le
  rcases lt_trichotomy (a.sort_order.getD 0) (b.sort_order.getD 0) with h | h | h
  · exact Or.inl (Or.inl h)
  · rcases le_total (a.fee_type.getD "") (b.fee_type.getD "") with hs | hs
    · exact Or.inl (Or.inr ⟨h, hs⟩)
    · exact Or.inr (Or.inr ⟨h.symm, hs⟩)
  · exact Or.inr (Or.inl h)

instance fee_key_le_trans : IsTrans FeeLine fee_key_le := by
  constructor
  intro a b c hab hbc
  unfold fee_key_le at *
  rcases hab with h1 | ⟨h1, hs1⟩
  · rcases hbc with h2 | ⟨h2, hs2⟩
    · exact Or.inl (h1.trans h2)
    · exact Or.inl (h2 ▸ h1)
  · rcases hbc with h2 | ⟨h2, hs2⟩
    · exact Or.inl (h1 ▸ h2)
    · exact Or.inr ⟨h1.trans h2, hs1.trans hs2⟩

/-- `normalize_fee_lines` from `pricing.py`: normalize each line, then sort by
`(sort_order, fee_type)` with Python's stable sort. -/
def normalize_fee_lines (lines : List FeeLine) : List FeeLine :=
  List.insertionSort fee_key_le (normalize_pass lines 1)

/-- A fee line that `normalize_pass` maps to itself (whatever the enumerate
counter is): exactly the shape of the lines `normalize_pass` emits. -/
def NormalLine (x : FeeLine) : Prop :=
  (∃ ft, x.fee_type = some ft ∧ ft ≠ "" ∧ pyStrip ft = ft) ∧
  (∃ lb, x.label = some lb ∧ lb ≠ "" ∧ pyStrip lb = lb) ∧
  (∃ am, x.amount = some am ∧ 0 ≤ am ∧ round2 am = am) ∧
  (∃ so, x.sort_order = some so ∧ 0 < so) ∧
  (x.fee_type = some "monthly_rent" → x.is_recurring = true)

/-! ### Owner statements: records and currency normalization
(`owner_statements.py`) -/

/-- Python `str.upper()` (ASCII-relevant subset). -/
def pyUpper (s : String) : String := String.mk (s.data.map Char.toUpper)

/-- `str(record.get("currency") or "PYG").strip().upper()` — the empty string
models a missing/falsy stored currency. -/
def norm_currency (currency : String) : String :=
  pyUpper (pyStrip (if currency = "" then "PYG" else currency))

/-- A `reservations` row, restricted to the fields the statement code reads.
`currency` is carried on the row but never read by the builder. -/
structure Reservation where
  id : String
  status : String
  unit_id : Option String
  check_in_date : Date
  check_out_date : Date
  total_amount : ℚ
  platform_fee : ℚ
  tax_amount : ℚ
  currency : String

deriving DecidableEq, Repr

/-- An `expenses` row. `fx_rate_to_pyg = none` models a value `float()`
rejects or an absent one; an empty `currency`/`category` models a missing
value. -/
structure Expense where
  id : String
  unit_id : Option String
  property_id : Option String
  expense_date : Date
  amount : ℚ
  currency : String
  fx_rate_to_pyg : Option ℚ
  category : String

deriving DecidableEq, Repr

/-- A `leases` row (fields read by the statement code). -/
structure Lease where
  id : String
  unit_id : Option String
  property_id : Option String
  platform_fee : ℚ

deriving DecidableEq, Repr

/-- A `lease_charges` row (fields read by the statement code); an empty
`lease_id` models a missing reference. -/
structure LeaseCharge where
  id : String
  lease_id : String
  charge_date : Date
  charge_type : String
  amount : ℚ
  currency : String

deriving DecidableEq, Repr

/-- A `collection_records` row.  `paid_at` is the date parsed from the first
ten characters of a non-empty `paid_at` string, `none` otherwise. -/
structure CollectionRecord where
  id : String
  lease_id : String
  status : String
  due_date : Date
  paid_at : Option Date
  amount : ℚ
  currency : String

deriving DecidableEq, Repr

/-- A `units` row (only the id is read; empty = missing). -/
structure UnitRow where
  id : String

deriving DecidableEq, Repr

def REPORTABLE_STATUSES : List String := ["confirmed", "checked_in", "checked_out"]

/-- `_expense_amount_pyg` from `owner_statements.py`: expenses support USD via
a positive `fx_rate_to_pyg`. -/
def _expense_amount_pyg (expense : Expense) : ℚ × Option String :=
  let currency := norm_currency expense.currency
  let amount := expense.amount
  if currency = "PYG" then (amount, none)
  else if currency = "USD" then
    match expense.fx_rate_to_pyg with
    | none => (0, some "missing_fx_rate_to_pyg")
    | some fx_value =>
      if fx_value ≤ 0 then (0, some "missing_fx_rate_to_pyg")
      else (amount * fx_value, none)
  else (0, some ("unsupported_currency:" ++ currency))

/-- `_generic_amount_pyg` from `owner_statements.py`: collection and lease
charge records do not store FX snapshots, so only PYG is convertible. -/
def _generic_amount_pyg (currency : String) (amount : ℚ) : ℚ × Option String :=
  let c := norm_currency currency
  if c = "PYG" then (amount, none)
  else (0, some ("unsupported_currency:" ++ c))

/-- One entry of the `line_items` audit trail. -/
structure LineItem where
  bucket : String
  source_table : String
  source_id : String
  kind : String
  date_from : Option String
  date_to : Option String
  date : Option String
  amount_pyg : ℚ

deriving DecidableEq, Repr

/-- The payload of the `HTTPException(400, ...)` raised when currency
normalization produced warnings: counts per warning kind and the sample ids
interpolated into the detail string. -/
structure StatementError where
  missing_fx : Nat
  unsupported : Nat
  samples : List String

deriving DecidableEq, Repr

/-- `expense_warnings.setdefault(warning, []).append(record_id)` on an
insertion-ordered association list. -/
def add_warning (ws : List (String × List String)) (w id : String) :
    List (String × List String) :=
  match ws with
  | [] => [(w, [id])]
  | (k, ids) :: rest =>
    if k = w then (k, ids ++ [id]) :: rest else (k, ids) :: add_warning rest w id

/-- Replay the warning events (warning kind, record id) in program order into
the `expense_warnings` dictionary. -/
def warn_dict (events : List (String × String)) : List (String × List String) :=
  events.foldl (fun ws e => add_warning ws e.1 e.2) []

/-- The sample-collection loop: keep the first 8 distinct non-empty ids. -/
def collect_samples : List String → List String → List String
  | [], acc => acc
  | id :: rest, acc =>
    if id ≠ "" ∧ id ∉ acc ∧ acc.length < 8 then collect_samples rest (acc ++ [id])
    else collect_samples rest acc

def startsWithUnsupported (k : String) : Bool :=
  ("unsupported_currency:".data).isPrefixOf k.data

/-- The numbers reported by the error branch of `_build_statement_breakdown`. -/
def statement_error (ws : List (String × List String)) : StatementError :=
  { missing_fx := ((ws.lookup "missing_fx_rate_to_pyg").getD []).length
    unsupported := (ws.map (fun kv => if startsWithUnsupported kv.1 then kv.2.length else 0)).sum
    samples := collect_samples ((ws.map Prod.snd).flatten) [] }

/-! ### Owner statements: scoping and the five aggregation loops -/

/-- Ids of the units returned by
`list_rows("units", {"organization_id", "property_id"})`. -/
def allowed_unit_ids (units : List UnitRow) : List String :=
  (units.filter (fun u => u.id ≠ "")).map (fun u => u.id)

/-- Reservation scoping: reportable status, then the unit/property filter. -/
def scope_reservations (reservations : List Reservation)
    (allowed : Option (List String)) (unit_id : Option String) : List Reservation :=
  let rs := reservations.filter (fun r => REPORTABLE_STATUSES.contains r.status)
  match unit_id with
  | some uid => rs.filter (fun r => r.unit_id == some uid)
  | none =>
    match allowed with
    | some ids => rs.filter (fun r =>
        match r.unit_id with
        | some u => ids.contains u
        | none => false)
    | none => rs

/-- Expense scoping (own `property_id` match or in-scope `unit_id`). -/
def scope_expenses (expenses : List Expense) (allowed : Option (List String))
    (property_id unit_id : Option String) : List Expense :=
  match unit_id with
  | some uid => expenses.filter (fun e => e.unit_id == some uid)
  | none =>
    match property_id with
    | some pid => expenses.filter (fun e =>
        e.property_id == some pid ||
          (match allowed with
          | some ids =>
            match e.unit_id with
            | some u => ids.contains u
            | none => false
          | none => false))
    | none => expenses

/-- Lease scoping (`unit_id` match, else allowed-unit set, else `property_id`). -/
def scope_leases (leases : List Lease) (allowed : Option (List String))
    (property_id unit_id : Option String) : List Lease :=
  match unit_id with
  | some uid => leases.filter (fun l => l.unit_id == some uid)
  | none =>
    match allowed with
    | some ids => leases.filter (fun l =>
        match l.unit_id with
        | some u => ids.contains u
        | none => false)
    | none =>
      match property_id with
      | some pid => leases.filter (fun l => l.property_id == some pid)
      | none => leases

/-- `lease_index.get(key)`: a Python dict comprehension keeps the last row per
id (rows with a falsy id are dropped). -/
def lease_lookup (leases : List Lease) (k : String) : Option Lease :=
  ((leases.filter (fun l => l.id ≠ "")).reverse).find? (fun l => l.id == k)

/-- The reservation loop of `_build_statement_breakdown`. -/
structure ResPhase where
  gross : ℚ
  platform : ℚ
  taxes : ℚ
  items : List LineItem

deriving Repr

def reservation_phase (start end_ : Date) : List Reservation → ResPhase
  | [] => ⟨0, 0, 0, []⟩
  | r :: rest =>
    let acc := reservation_phase start end_ rest
    if r.check_out_date ≤ start ∨ end_ < r.check_in_date then acc
    else
      { gross := r.total_amount + acc.gross
        platform := r.platform_fee + acc.platform
        taxes := r.tax_amount + acc.taxes
        items :=
          (if r.total_amount ≠ 0 then
            [{ bucket := "gross_revenue", source_table := "reservations",
               source_id := r.id, kind := "reservation_total",
               date_from := some r.check_in_date.toIso,
               date_to := some r.check_out_date.toIso, date := none,
               amount_pyg := round2 r.total_amount }]
          else []) ++
          (if r.platform_fee ≠ 0 then
            [{ bucket := "platform_fees", source_table := "reservations",
               source_id := r.id, kind := "reservation_platform_fee",
               date_from := none, date_to := none, date := none,
               amount_pyg := round2 r.platform_fee }]
          else []) ++
          (if r.tax_amount ≠ 0 then
            [{ bucket := "taxes_collected", source_table := "reservations",
               source_id := r.id, kind := "reservation_tax",
               date_from := none, date_to := none, date := none,
               amount_pyg := round2 r.tax_amount }]
          else []) ++ acc.items }

/-- The expense loop: sum of normalized amounts, warning events in program
order, and audit line items. -/
structure ExpPhase where
  total : ℚ
  events : List (String × String)
  items : List LineItem

deriving Repr

def expense_phase (start end_ : Date) : List Expense → ExpPhase
  | [] => ⟨0, [], []⟩
  | e :: rest =>
    let acc := expense_phase start end_ rest
    if start ≤ e.expense_date ∧ e.expense_date ≤ end_ then
      let amount_warning := _expense_amount_pyg e
      { total := amount_warning.1 + acc.total
        events := (match amount_warning.2 with
          | some w => [(w, e.id)]
          | none => []) ++ acc.events
        items :=
          { bucket := "operating_expenses", source_table := "expenses",
            source_id := e.id,
            kind := if e.category = "" then "expense" else e.category,
            date_from := none, date_to := none,
            date := some e.expense_date.toIso,
            amount_pyg := round2 amount_warning.1 } :: acc.items }
    else acc

/-- The collection loop: paid collections whose effective paid date is in the
period; every contributing `lease_id` is recorded (in program order, with
duplicates) for the `collection_fees` pass. -/
structure CollPhase where
  total : ℚ
  paid_ids : List String
  events : List (String × String)
  items : List LineItem

deriving Repr

/-- The effective paid date: `paid_at` truncated to a date when present,
else the due date. -/
def effective_paid_on (c : CollectionRecord) : Date :=
  match c.paid_at with
  | some p => p
  | none => c.due_date

def collection_phase (start end_ : Date) : List CollectionRecord → CollPhase
  | [] => ⟨0, [], [], []⟩
  | c :: rest =>
    let acc := collection_phase start end_ rest
    if c.status ≠ "paid" then acc
    else
      let paid_on := effective_paid_on c
      if start ≤ paid_on ∧ paid_on ≤ end_ then
        let amount_warning := _generic_amount_pyg c.currency c.amount
        { total := amount_warning.1 + acc.total
          paid_ids := (if c.lease_id ≠ "" then [c.lease_id] else []) ++ acc.paid_ids
          events := (match amount_warning.2 with
            | some w => [(w, c.id)]
            | none => []) ++ acc.events
          items :=
            { bucket := "lease_collections", source_table := "collection_records",
              source_id := c.id, kind := "collection_paid",
              date_from := none, date_to := none,
              date := some paid_on.toIso,
              amount_pyg := round2 amount_warning.1 } :: acc.items }
      else acc

/-- The lease-charge loop: in-period `service_fee_flat` / `admin_fee` charges. -/
structure ChargePhase where
  total : ℚ
  events : List (String × String)
  items : List LineItem

deriving Repr

def charge_phase (start end_ : Date) : List LeaseCharge → ChargePhase
  | [] => ⟨0, [], []⟩
  | ch :: rest =>
    let acc := charge_phase start end_ rest
    if start ≤ ch.charge_date ∧ ch.charge_date ≤ end_ then
      if ch.charge_type = "service_fee_flat" ∨ ch.charge_type = "admin_fee" then
        let amount_warning := _generic_amount_pyg ch.currency ch.amount
        { total := amount_warning.1 + acc.total
          events := (match amount_warning.2 with
            | some w => [(w, ch.id)]
            | none => []) ++ acc.events
          items :=
            { bucket := "service_fees", source_table := "lease_charges",
              source_id := ch.id, kind := ch.charge_type,
              date_from := none, date_to := none,
              date := some ch.charge_date.toIso,
              amount_pyg := round2 amount_warning.1 } :: acc.items }
      else acc
    else acc

/-- The `collection_fees` loop over the set of paid lease ids. -/
def collection_fees_phase (leases : List Lease) : List String → ℚ × List LineItem
  | [] => (0, [])
  | lease_id :: rest =>
    let acc := collection_fees_phase leases rest
    let platform_fee := match lease_lookup leases lease_id with
      | some lease => lease.platform_fee
      | none => 0
    (platform_fee + acc.1,
      { bucket := "collection_fees", source_table := "leases",
        source_id := lease_id, kind := "platform_fee_per_paid_lease",
        date_from := none, date_to := none, date := none,
        amount_pyg := round2 platform_fee } :: acc.2)

/-- The six computed totals plus net payout, the reconciliation echo and the
audit trail, as assembled by `_build_statement_breakdown`. -/
structure Breakdown where
  gross_revenue : ℚ
  lease_collections : ℚ
  service_fees : ℚ
  collection_fees : ℚ
  platform_fees : ℚ
  taxes_collected : ℚ
  operating_expenses : ℚ
  net_payout : ℚ
  gross_total : ℚ
  computed_net_payout : ℚ
  line_items : List LineItem

deriving DecidableEq, Repr, Inhabited

/-- The scoped record sets and the five loop results of
`_build_statement_breakdown`, before the warning gate. -/
structure StageResult where
  scoped_reservations : List Reservation
  scoped_expenses : List Expense
  scoped_leases : List Lease
  scoped_charges : List LeaseCharge
  scoped_collections : List CollectionRecord
  rphase : ResPhase
  ephase : ExpPhase
  cphase : CollPhase
  chphase : ChargePhase
  paid_lease_ids : List String
  collection_fees : ℚ
  cf_items : List LineItem

deriving Repr

/-- Scoping plus the five aggregation loops of `_build_statement_breakdown`
(the record lists are the rows returned by the `list_rows` calls; `units` are
the rows of the property's units when `property_id` is given). -/
def statement_stage
    (units : List UnitRow)
    (reservations : List Reservation) (expenses : List Expense)
    (leases : List Lease) (lease_charges : List LeaseCharge)
    (collections : List CollectionRecord)
    (property_id unit_id : Option String)
    (start end_ : Date) : StageResult :=
  let allowed : Option (List String) := match property_id with
    | some _ => some (allowed_unit_ids units)
    | none => none
  let rs := scope_reservations reservations allowed unit_id
  let es := scope_expenses expenses allowed property_id unit_id
  let ls := scope_leases leases allowed property_id unit_id
  let lease_ids : List String :=
    ((ls.filter (fun l => l.id ≠ "")).map (fun l => l.id)).dedup
  let chs := if lease_ids ≠ [] then
      lease_charges.filter (fun ch => lease_ids.contains ch.lease_id)
    else []
  let cols := if lease_ids ≠ [] then
      collections.filter (fun c => lease_ids.contains c.lease_id)
    else []
  let cphase := collection_phase start end_ cols
  let paid_lease_ids := cphase.paid_ids.dedup
  let cf := collection_fees_phase ls paid_lease_ids
  { scoped_reservations := rs
    scoped_expenses := es
    scoped_leases := ls
    scoped_charges := chs
    scoped_collections := cols
    rphase := reservation_phase start end_ rs
    ephase := expense_phase start end_ es
    cphase := cphase
    chphase := charge_phase start end_ chs
    paid_lease_ids := paid_lease_ids
    collection_fees := cf.1
    cf_items := cf.2 }

/-- The warning events of a stage, in program order (expenses, then paid
collections, then service/admin charges). -/
def stage_events (st : StageResult) : List (String × String) :=
  st.ephase.events ++ st.cphase.events ++ st.chphase.events

/-- `_build_statement_breakdown` from `owner_statements.py`: all-or-nothing —
any normalization warning aborts with the 400 error, otherwise the rounded
totals, net payout and audit trail are returned. -/
def _build_statement_breakdown
    (units : List UnitRow)
    (reservations : List Reservation) (expenses : List Expense)
    (leases : List Lease) (lease_charges : List LeaseCharge)
    (collections : List CollectionRecord)
    (property_id unit_id : Option String)
    (start end_ : Date) : Except StatementError Breakdown :=
  let st := statement_stage units reservations expenses leases lease_charges
    collections property_id unit_id start end_
  let ws := warn_dict (stage_events st)
  if ws ≠ [] then Except.error (statement_error ws)
  else
    let gross_total := st.rphase.gross + st.cphase.total
    let net_payout := gross_total - st.rphase.platform - st.chphase.total
      - st.collection_fees - st.ephase.total
    Except.ok
      { gross_revenue := round2 st.rphase.gross
        lease_collections := round2 st.cphase.total
        service_fees := round2 st.chphase.total
        collection_fees := round2 st.collection_fees
        platform_fees := round2 st.rphase.platform
        taxes_collected := round2 st.rphase.taxes
        operating_expenses := round2 st.ephase.total
        net_payout := round2 net_payout
        gross_total := round2 gross_total
        computed_net_payout := round2 net_payout
        line_items := st.rphase.items ++ st.ephase.items ++ st.cphase.items
          ++ st.chphase.items ++ st.cf_items }

/-! ### Reservations bypass currency normalization -/

/-- Rewrite the `currency` field of a reservation row, leaving every field the
builder reads untouched. -/
def set_currency (f : Reservation → String) (r : Reservation) : Reservation :=
  { r with currency := f r }

/-- The error component of a build result. -/
def exceptErr {ε α : Type} : Except ε α → Option ε
  | .error e => some e
  | .ok _ => none

/-! ### Schedule materialization: `ensure_monthly_lease_schedule`
(`lease_schedule.py`).  The external row store is modelled as in-memory row
lists with a fresh-id counter; `list_rows(table, {"lease_id": ...}, limit,
order_by, ascending=True)` is modelled as filter + stable sort on the order
column + truncation to `limit`. -/

/-- A `lease_charges` row as read/written by the materializer. -/
structure ChargeRow where
  id : String
  organization_id : String
  lease_id : String
  charge_date : String
  charge_type : String
  description : String
  amount : ℚ
  currency : String
  status : String

deriving DecidableEq, Repr

/-- A `collection_records` row as read/written by the materializer. -/
structure CollectionRow where
  id : String
  organization_id : String
  lease_id : String
  lease_charge_id : Option String
  due_date : String
  amount : ℚ
  currency : String
  status : String
  created_by_user_id : Option String

deriving DecidableEq, Repr

/-- The row store visible to the materializer, with the id counter the store
uses for `create_row`. -/
structure Store where
  charges : List ChargeRow
  collections : List CollectionRow
  next_id : Nat

deriving DecidableEq, Repr

def freshId (n : Nat) : String := "row-" ++ toString n

/-- `list_rows("lease_charges", {"lease_id": lease_id}, limit,
order_by="charge_date", ascending=True)`. -/
def list_charge_rows (σ : Store) (lease_id : String) (limit : Nat) : List ChargeRow :=
  (List.insertionSort (fun a b => a.charge_date ≤ b.charge_date)
    (σ.charges.filter (fun c => c.lease_id == lease_id))).take limit

/-- `list_rows("collection_records", {"lease_id": lease_id}, limit,
order_by="due_date", ascending=True)`. -/
def list_collection_rows (σ : Store) (lease_id : String) (limit : Nat) : List CollectionRow :=
  (List.insertionSort (fun a b => a.due_date ≤ b.due_date)
    (σ.collections.filter (fun c => c.lease_id == lease_id))).take limit

/-- `existing_charge_by_due`: first `monthly_rent` charge per due date. -/
def build_charge_index (due_keys : List String) :
    List ChargeRow → List (String × ChargeRow) → List (String × ChargeRow)
  | [], idx => idx
  | c :: rest, idx =>
    if c.charge_type = "monthly_rent" ∧ c.charge_date ∈ due_keys
        ∧ (idx.lookup c.charge_date).isNone then
      build_charge_index due_keys rest (idx ++ [(c.charge_date, c)])
    else
      build_charge_index due_keys rest idx

/-- `existing_collection_by_due`: first collection per due date. -/
def build_collection_index (due_keys : List String) :
    List CollectionRow → List (String × CollectionRow) → List (String × CollectionRow)
  | [], idx => idx
  | c :: rest, idx =>
    if c.due_date ∈ due_keys ∧ (idx.lookup c.due_date).isNone then
      build_collection_index due_keys rest (idx ++ [(c.due_date, c)])
    else
      build_collection_index due_keys rest idx

/-- The mutable state of the materialization loop. -/
structure EnsureState where
  σ : Store
  charge_idx : List (String × ChargeRow)
  coll_idx : List (String × CollectionRow)
  created_charges : List ChargeRow
  created_collections : List CollectionRow
  first_collection : Option CollectionRow

deriving Repr

/-- The `lease_charges` payload passed to `create_row` (with its fresh id). -/
def newChargeRow (organization_id lease_id : String) (amount : ℚ) (currency : String)
    (due_iso : String) (n : Nat) : ChargeRow :=
  { id := freshId n
    organization_id := organization_id
    lease_id := lease_id
    charge_date := due_iso
    charge_type := "monthly_rent"
    description := "Recurring monthly lease charge (" ++ due_iso ++ ")"
    amount := round2 amount
    currency := currency
    status := "scheduled" }

/-- The `collection_records` payload passed to `create_row` (with its fresh
id). -/
def newCollectionRow (organization_id lease_id : String) (amount : ℚ) (currency : String)
    (created_by_user_id : Option String) (due_iso charge_id : String) (n : Nat) :
    CollectionRow :=
  { id := freshId n
    organization_id := organization_id
    lease_id := lease_id
    lease_charge_id := some charge_id
    due_date := due_iso
    amount := round2 amount
    currency := currency
    status := "scheduled"
    created_by_user_id := created_by_user_id }

/-- Reuse the indexed charge for the due date, else create one. -/
def charge_step (organization_id lease_id : String) (amount : ℚ) (currency : String)
    (due_iso : String) (st : EnsureState) : ChargeRow × EnsureState :=
  match st.charge_idx.lookup due_iso with
  | some c => (c, st)
  | none =>
    let c := newChargeRow organization_id lease_id amount currency due_iso st.σ.next_id
    (c, { st with
      σ := { st.σ with charges := st.σ.charges ++ [c], next_id := st.σ.next_id + 1 }
      charge_idx := st.charge_idx ++ [(due_iso, c)]
      created_charges := st.created_charges ++ [c] })

/-- Reuse the indexed collection for the due date, else create one linked to
the charge. -/
def collection_step (organization_id lease_id : String) (amount : ℚ) (currency : String)
    (created_by_user_id : Option String) (due_iso : String) (charge : ChargeRow)
    (st : EnsureState) : CollectionRow × EnsureState :=
  match st.coll_idx.lookup due_iso with
  | some col => (col, st)
  | none =>
    let col := newCollectionRow organization_id lease_id amount currency
      created_by_user_id due_iso charge.id st.σ.next_id
    (col, { st with
      σ := { st.σ with collections := st.σ.collections ++ [col], next_id := st.σ.next_id + 1 }
      coll_idx := st.coll_idx ++ [(due_iso, col)]
      created_collections := st.created_collections ++ [col] })

/-- One iteration of the `for index, due_date in enumerate(due_dates)` body. -/
def ensure_step (organization_id lease_id : String) (amount : ℚ) (currency : String)
    (created_by_user_id : Option String) (due_iso : String) (st : EnsureState) :
    CollectionRow × EnsureState :=
  let charge_st := charge_step organization_id lease_id amount currency due_iso st
  collection_step organization_id lease_id amount currency created_by_user_id due_iso
    charge_st.1 charge_st.2

def ensure_loop (organization_id lease_id : String) (amount : ℚ) (currency : String)
    (created_by_user_id : Option String) :
    List String → Nat → EnsureState → EnsureState
  | [], _, st => st
  | d :: rest, pos, st =>
    let col_st := ensure_step organization_id lease_id amount currency created_by_user_id d st
    let st2 := if pos = 0 then { col_st.2 with first_collection := some col_st.1 } else col_st.2
    ensure_loop organization_id lease_id amount currency created_by_user_id rest (pos + 1) st2

/-- The dictionary returned by `ensure_monthly_lease_schedule`. -/
structure EnsureResult where
  due_dates : List String
  charges : List ChargeRow
  collections : List CollectionRow
  first_collection : Option CollectionRow

deriving DecidableEq, Repr

/-- The body of `ensure_monthly_lease_schedule` once the due dates are
built: index the existing rows, then run the per-date loop. -/
def ensure_with_dates (organization_id lease_id : String)
    (amount : ℚ) (currency : String) (created_by_user_id : Option String)
    (due_dates : List Date) (σ : Store) : EnsureResult × Store :=
  let due_keys := due_dates.map Date.toIso
  let limit := max 300 (due_dates.length * 4)
  let charge_idx := build_charge_index due_keys (list_charge_rows σ lease_id limit) []
  let coll_idx := build_collection_index due_keys (list_collection_rows σ lease_id limit) []
  let stF := ensure_loop organization_id lease_id amount currency created_by_user_id
    due_keys 0 ⟨σ, charge_idx, coll_idx, [], [], none⟩
  ({ due_dates := due_keys
     charges := stF.created_charges
     collections := stF.created_collections
     first_collection := stF.first_collection }, stF.σ)

/-- `ensure_monthly_lease_schedule` from `lease_schedule.py`, paired with the
row store it leaves behind. -/
def ensure_monthly_lease_schedule
    (organization_id lease_id : String) (starts_on : String)
    (first_collection_due_date ends_on : Option String)
    (collection_schedule_months : Option Int)
    (amount : ℚ) (currency : String) (created_by_user_id : Option String)
    (σ : Store) : Except ApiError (EnsureResult × Store) := do
  let due_dates ← build_monthly_schedule_dates starts_on first_collection_due_date
    ends_on collection_schedule_months
  pure (ensure_with_dates organization_id lease_id amount currency created_by_user_id
    due_dates σ)

/-- The predicate a `lease_charges` row must satisfy to be indexed at `d`. -/
def charge_matches (d : String) (c : ChargeRow) : Bool :=
  c.charge_type == "monthly_rent" && c.charge_date == d

/-- The predicate a `collection_records` row must satisfy to be indexed at
`d`. -/
def coll_matches (d : String) (c : CollectionRow) : Bool :=
  c.due_date == d

/-- Some `monthly_rent` charge row for lease `L` exists at date `d`. -/
def ChargeCovered (L d : String) (σ : Store) : Prop :=
  ∃ c, c ∈ σ.charges ∧ c.lease_id = L ∧ c.charge_type = "monthly_rent" ∧ c.charge_date = d

/-- Some collection row for lease `L` exists with due date `d`. -/
def CollCovered (L d : String) (σ : Store) : Prop :=
  ∃ c, c ∈ σ.collections ∧ c.lease_id = L ∧ c.due_date = d

/-- Loop invariant: every index binding points at a store row of the lease,
keyed by its own date column. -/
def IdxInv (L : String) (st : EnsureState) : Prop :=
  (∀ kv ∈ st.charge_idx, kv.2 ∈ st.σ.charges ∧ kv.2.lease_id = L ∧
      kv.2.charge_type = "monthly_rent" ∧ kv.2.charge_date = kv.1) ∧
  (∀ kv ∈ st.coll_idx, kv.2 ∈ st.σ.collections ∧ kv.2.lease_id = L ∧ kv.2.due_date = kv.1)

/-! ### Basic facts about dates and clamped month addition -/

lemma daysInMonth_pos (year month : Nat) : 0 < daysInMonth year month := by
  unfold daysInMonth; split_ifs <;> omega

lemma Date.lt_iff_not_le {a b : Date} : a < b ↔ ¬ b ≤ a := by
  change Date.lt a b ↔ ¬ Date.le b a
  unfold Date.lt Date.le
  omega

lemma parseIsoDate_valid {s : String} {d : Date} (h : parseIsoDate s = some d) :
    d.valid := by
  unfold Date.valid
  unfold parseIsoDate at h
  repeat' split at h
  all_goals try exact Option.noConfusion h
  injection h with h'
  subst h'
  dsimp only
  omega

lemma parse_iso_date_ok {v f : String} {d : Date}
    (h : parse_iso_date v f = Except.ok d) : parseIsoDate v = some d ∧ d.valid := by
  unfold parse_iso_date at h
  split at h
  · rename_i d' hd'
    obtain ⟨rfl⟩ := Except.ok.inj h
    exact ⟨hd', parseIsoDate_valid hd'⟩
  · exact absurd h (by simp)

lemma add_months_year (a : Date) (n : Nat) :
    (add_months_clamped a n).year = a.year + ((a.month - 1) + n) / 12 := rfl

lemma add_months_month (a : Date) (n : Nat) :
    (add_months_clamped a n).month = ((a.month - 1) + n) % 12 + 1 := rfl

lemma add_months_day (a : Date) (n : Nat) :
    (add_months_clamped a n).day
      = min a.day (daysInMonth (add_months_clamped a n).year (add_months_clamped a n).month) :=
  rfl

lemma monthIdx_add_months (a : Date) (h : 1 ≤ a.month) (n : Nat) :
    monthIdx (add_months_clamped a n) = monthIdx a + n := by
  simp only [monthIdx, add_months_year, add_months_month]
  omega

lemma add_months_month_bounds (a : Date) (n : Nat) :
    1 ≤ (add_months_clamped a n).month ∧ (add_months_clamped a n).month ≤ 12 := by
  simp only [add_months_month]
  omega

lemma add_months_zero (a : Date) (h : a.valid) : add_months_clamped a 0 = a := by
  cases a with
  | mk y m d =>
    obtain ⟨-, -, h1, h2, h3, h4⟩ := h
    dsimp only at h1 h2 h3 h4
    show Date.mk (y + ((m - 1) + 0) / 12) (((m - 1) + 0) % 12 + 1)
        (min d (daysInMonth (y + ((m - 1) + 0) / 12) (((m - 1) + 0) % 12 + 1))) = ⟨y, m, d⟩
    have hz : (m - 1 + 0) / 12 = 0 := by omega
    have hm12 : (m - 1 + 0) % 12 + 1 = m := by omega
    rw [hz, hm12, Nat.add_zero]
    rw [Nat.min_eq_left h4]

lemma add_months_lt_succ (a : Date) (hm : 1 ≤ a.month) (n : Nat) :
    add_months_clamped a n < add_months_clamped a (n + 1) := by
  have h1 := monthIdx_add_months a hm n
  have h2 := monthIdx_add_months a hm (n + 1)
  have b1 := add_months_month_bounds a n
  have b2 := add_months_month_bounds a (n + 1)
  change Date.lt _ _
  unfold Date.lt
  unfold monthIdx at h1 h2
  omega

lemma chain'_lt_add_months (a : Date) (hm : 1 ≤ a.month) (k : Nat) :
    List.Chain' (· < ·) ((List.range k).map (fun o => add_months_clamped a o)) := by
  rw [List.chain'_map]
  cases k with
  | zero => simp
  | succ k' =>
    exact (List.chain'_range_succ _ k').2 (fun m _ => add_months_lt_succ a hm m)

lemma chain'_monthIdx_add_months (a : Date) (hm : 1 ≤ a.month) (k : Nat) :
    List.Chain' (fun x y => monthIdx y = monthIdx x + 1)
      ((List.range k).map (fun o => add_months_clamped a o)) := by
  rw [List.chain'_map]
  cases k with
  | zero => simp
  | succ k' =>
    refine (List.chain'_range_succ _ k').2 (fun m _ => ?_)
    rw [monthIdx_add_months a hm, monthIdx_add_months a hm]
    omega

/-! ### Unfolding lemmas for `build_monthly_schedule_dates` -/

lemma build_dates_months_branch
    (eo : Option String) (starts_on : String) (fcd : Option String)
    (months : Option Int) (d a : Date)
    (hs : parse_iso_date starts_on "starts_on" = Except.ok d)
    (ha : parse_iso_date (effective_anchor starts_on fcd) "first_collection_due_date"
      = Except.ok a)
    (hee : effective_ends eo = none) :
    build_monthly_schedule_dates starts_on fcd eo months =
      (if months_arg months < 1 then
        Except.error (.badRequest "collection_schedule_months must be >= 1.")
      else pure ((List.range (min (months_arg months)
          (MAX_COLLECTION_SCHEDULE_MONTHS : Int)).toNat).map
        (fun o => add_months_clamped a o))) := by
  unfold build_monthly_schedule_dates
  rw [hs, ha, hee]
  rfl

lemma build_dates_ends_branch
    (eo : Option String) (starts_on : String) (fcd : Option String) (es : String)
    (months : Option Int) (d a e : Date)
    (hs : parse_iso_date starts_on "starts_on" = Except.ok d)
    (ha : parse_iso_date (effective_anchor starts_on fcd) "first_collection_due_date"
      = Except.ok a)
    (hee : effective_ends eo = some es)
    (hpe : parse_iso_date es "ends_on" = Except.ok e) :
    build_monthly_schedule_dates starts_on fcd eo months =
      (if (schedule_window a e).isEmpty then pure [if d ≤ a then a else d]
      else pure (schedule_window a e)) := by
  unfold build_monthly_schedule_dates
  rw [hs, ha, hee]
  dsimp only
  rw [hpe]
  rfl

lemma build_dates_ends_error
    (eo : Option String) (starts_on : String) (fcd : Option String) (es : String)
    (months : Option Int) (d a : Date) (err : ApiError)
    (hs : parse_iso_date starts_on "starts_on" = Except.ok d)
    (ha : parse_iso_date (effective_anchor starts_on fcd) "first_collection_due_date"
      = Except.ok a)
    (hee : effective_ends eo = some es)
    (hpe : parse_iso_date es "ends_on" = Except.error err) :
    build_monthly_schedule_dates starts_on fcd eo months = Except.error err := by
  unfold build_monthly_schedule_dates
  rw [hs, ha, hee]
  dsimp only
  rw [hpe]
  rfl

lemma build_dates_ok_parses
    {starts_on : String} {fcd eo : Option String} {months : Option Int} {ds : List Date}
    (hb : build_monthly_schedule_dates starts_on fcd eo months = Except.ok ds) :
    ∃ d a, parse_iso_date starts_on "starts_on" = Except.ok d ∧
      parse_iso_date (effective_anchor starts_on fcd) "first_collection_due_date"
        = Except.ok a := by
  unfold build_monthly_schedule_dates at hb
  cases hps : parse_iso_date starts_on "starts_on" with
  | error e =>
    rw [hps] at hb
    exact absurd hb (by simp [Bind.bind, Except.bind])
  | ok d =>
    rw [hps] at hb
    cases hpa : parse_iso_date (effective_anchor starts_on fcd) "first_collection_due_date" with
    | error e =>
      rw [hpa] at hb
      exact absurd hb (by simp [Bind.bind, Except.bind])
    | ok a => exact ⟨d, a, rfl, rfl⟩

lemma build_dates_length_le
    {starts_on : String} {fcd eo : Option String} {months : Option Int} {ds : List Date}
    (hb : build_monthly_schedule_dates starts_on fcd eo months = Except.ok ds) :
    ds.length ≤ 120 ∧ ds ≠ [] := by
  obtain ⟨d, a, hs, ha⟩ := build_dates_ok_parses hb
  cases hee : effective_ends eo with
  | none =>
    rw [build_dates_months_branch eo starts_on fcd months d a hs ha hee] at hb
    split at hb
    · exact absurd hb (by simp)
    · rename_i hm0
      obtain ⟨rfl⟩ := Except.ok.inj hb
      have hMAX : (MAX_COLLECTION_SCHEDULE_MONTHS : Int) = 120 := rfl
      constructor
      · simp only [List.length_map, List.length_range]
        omega
      · rw [← List.length_pos]
        simp only [List.length_map, List.length_range]
        omega
  | some es =>
    cases hpe : parse_iso_date es "ends_on" with
    | error err =>
      rw [build_dates_ends_error eo starts_on fcd es months d a err hs ha hee hpe] at hb
      exact absurd hb (by simp)
    | ok e =>
      rw [build_dates_ends_branch eo starts_on fcd es months d a e hs ha hee hpe] at hb
      split at hb
      · obtain ⟨rfl⟩ := Except.ok.inj hb
        exact ⟨by simp, by simp⟩
      · rename_i hne
        obtain ⟨rfl⟩ := Except.ok.inj hb
        constructor
        · calc (schedule_window a e).length
              ≤ ((List.range MAX_COLLECTION_SCHEDULE_MONTHS).map
                (fun offset => add_months_clamped a offset)).length :=
            (List.IsPrefix.sublist (List.takeWhile_prefix _)).length_le
          _ = 120 := by simp [MAX_COLLECTION_SCHEDULE_MONTHS]
        · intro hnil
          exact hne (by rw [hnil]; rfl)

lemma schedule_window_eq_nil {a e : Date} (hav : a.valid) (hlt : e < a) :
    schedule_window a e = [] := by
  unfold schedule_window
  have h120 : List.range MAX_COLLECTION_SCHEDULE_MONTHS
      = 0 :: (List.range 119).map Nat.succ :=
    List.range_succ_eq_map 119
  rw [h120, List.map_cons, add_months_zero a hav]
  have hnotle : ¬ (a ≤ e) := Date.lt_iff_not_le.mp hlt
  simp [List.takeWhile_cons, hnotle]

/-- C4: adding `N` months to an anchor date is calendar-aware: the result lands
exactly `N` months further (in `year*12 + (month-1)` terms) and its day is the
anchor's day-of-month clamped to the target month's last valid day, always a
valid calendar day; in particular `build_monthly_schedule_dates` with
`starts_on="2026-05-31"`, `ends_on="2026-08-31"` returns exactly
`["2026-05-31","2026-06-30","2026-07-31","2026-08-31"]`. -/
theorem add_months_clamped_calendar_aware (anchor : Date) (n : Nat) (h : anchor.valid) :
    (monthIdx (add_months_clamped anchor n) = monthIdx anchor + n
      ∧ (add_months_clamped anchor n).day
          = min anchor.day (daysInMonth (add_months_clamped anchor n).year
              (add_months_clamped anchor n).month)
      ∧ 1 ≤ (add_months_clamped anchor n).day
      ∧ (add_months_clamped anchor n).day
          ≤ daysInMonth (add_months_clamped anchor n).year (add_months_clamped anchor n).month)
    ∧ Except.map (List.map Date.toIso)
        (build_monthly_schedule_dates "2026-05-31" none (some "2026-08-31") none)
      = Except.ok ["2026-05-31", "2026-06-30", "2026-07-31", "2026-08-31"] := by
  constructor
  · refine ⟨monthIdx_add_months anchor h.2.2.1 n, add_months_day anchor n, ?_, ?_⟩
    · rw [add_months_day]
      have h1 := daysInMonth_pos (add_months_clamped anchor n).year
        (add_months_clamped anchor n).month
      have h2 := h.2.2.2.2.1
      omega
    · rw [add_months_day]
      omega
  · decide

theorem add_months_clamped_calendar_aware_witness :
    (add_months_clamped ⟨2026, 1, 31⟩ 1).day
      = min 31 (daysInMonth (add_months_clamped ⟨2026, 1, 31⟩ 1).year
          (add_months_clamped ⟨2026, 1, 31⟩ 1).month) :=
  (add_months_clamped_calendar_aware ⟨2026, 1, 31⟩ 1 (by decide)).1.2.1

/-- C5 counterexample: the claim says every `schedule_months ≤ 0` is a
validation error, but `collection_schedule_months = 0` is falsy in Python, so
`months or 12` silently replaces it with the default and the build succeeds
with 12 dates. -/
theorem schedule_months_zero_not_error :
    Except.map List.length (build_monthly_schedule_dates "2026-05-01" none none (some 0))
      = Except.ok 12 := by decide

/-- C5 (amended): with `ends_on` absent, a `schedule_months` value `< 0` fails
with a validation error, a value of `0` is treated as absent (default 12),
values in `[1, 120]` emit exactly that many dates, values above `120` emit
exactly `120`, and an absent value emits exactly `12`. -/
theorem schedule_months_handling
    (starts_on : String) (fcd : Option String) (n : Option Int) (d a : Date)
    (hs : parse_iso_date starts_on "starts_on" = Except.ok d)
    (ha : parse_iso_date (effective_anchor starts_on fcd) "first_collection_due_date"
      = Except.ok a) :
    (∀ m : Int, n = some m → m < 0 →
      build_monthly_schedule_dates starts_on fcd none n
        = Except.error (.badRequest "collection_schedule_months must be >= 1."))
    ∧ (∀ m : Int, n = some m → 1 ≤ m → m ≤ 120 →
      Except.map List.length (build_monthly_schedule_dates starts_on fcd none n)
        = Except.ok m.toNat)
    ∧ (∀ m : Int, n = some m → 120 < m →
      Except.map List.length (build_monthly_schedule_dates starts_on fcd none n)
        = Except.ok 120)
    ∧ (n = none →
      Except.map List.length (build_monthly_schedule_dates starts_on fcd none n)
        = Except.ok 12)
    ∧ (n = some 0 →
      Except.map List.length (build_monthly_schedule_dates starts_on fcd none n)
        = Except.ok 12) := by
  have hbr := build_dates_months_branch none starts_on fcd n d a hs ha rfl
  have hMAX : (MAX_COLLECTION_SCHEDULE_MONTHS : Int) = 120 := rfl
  refine ⟨?_, ?_, ?_, ?_, ?_⟩
  · rintro m rfl hm
    have hma : months_arg (some m) = m := by
      simp only [months_arg]
      rw [if_neg (by omega)]
    rw [hbr, hma, if_pos (by omega)]
  · rintro m rfl h1 h2
    have hma : months_arg (some m) = m := by
      simp only [months_arg]
      rw [if_neg (by omega)]
    rw [hbr, hma, if_neg (by omega)]
    simp only [pure, Except.pure, Except.map, List.length_map, List.length_range]
    congr 1
    omega
  · rintro m rfl hm
    have hma : months_arg (some m) = m := by
      simp only [months_arg]
      rw [if_neg (by omega)]
    rw [hbr, hma, if_neg (by omega)]
    simp only [pure, Except.pure, Except.map, List.length_map, List.length_range]
    congr 1
    omega
  · rintro rfl
    have hma : months_arg none = (12 : Int) := rfl
    rw [hbr, hma, if_neg (by norm_num)]
    simp only [pure, Except.pure, Except.map, List.length_map, List.length_range]
    congr 1
  · rintro rfl
    have hma : months_arg (some 0) = (12 : Int) := rfl
    rw [hbr, hma, if_neg (by norm_num)]
    simp only [pure, Except.pure, Except.map, List.length_map, List.length_range]
    congr 1

theorem schedule_months_handling_witness :
    Except.map List.length
        (build_monthly_schedule_dates "2026-05-01" none none (some 7))
      = Except.ok (7 : Int).toNat :=
  (schedule_months_handling "2026-05-01" none (some 7) ⟨2026, 5, 1⟩ ⟨2026, 5, 1⟩
    rfl rfl).2.1 7 rfl (by decide) (by decide)

/-- C8: every successful `build_monthly_schedule_dates` result is a non-empty
list of dates that is strictly increasing with exactly one entry per covered
month (consecutive month indices); when the parsed `ends_on` is earlier than
the anchor, the result is the single fallback date `max(anchor, starts_on)`. -/
theorem schedule_dates_invariant
    (starts_on : String) (fcd ends_on : Option String) (months : Option Int)
    (d a : Date) (ds : List Date)
    (hs : parse_iso_date starts_on "starts_on" = Except.ok d)
    (ha : parse_iso_date (effective_anchor starts_on fcd) "first_collection_due_date"
      = Except.ok a)
    (hb : build_monthly_schedule_dates starts_on fcd ends_on months = Except.ok ds) :
    ds ≠ [] ∧ List.Chain' (· < ·) ds
      ∧ List.Chain' (fun x y => monthIdx y = monthIdx x + 1) ds
      ∧ (∀ es e, effective_ends ends_on = some es →
          parse_iso_date es "ends_on" = Except.ok e → e < a →
          ds = [if d ≤ a then a else d]) := by
  have hav : a.valid := (parse_iso_date_ok ha).2
  have ham : 1 ≤ a.month := hav.2.2.1
  have hne := (build_dates_length_le hb).2
  refine ⟨hne, ?_⟩
  cases hee : effective_ends ends_on with
  | none =>
    rw [build_dates_months_branch ends_on starts_on fcd months d a hs ha hee] at hb
    split at hb
    · exact absurd hb (by simp)
    · obtain ⟨rfl⟩ := Except.ok.inj hb
      refine ⟨chain'_lt_add_months a ham _, chain'_monthIdx_add_months a ham _, ?_⟩
      intro es e heq
      exact absurd heq (by simp)
  | some es =>
    cases hpe : parse_iso_date es "ends_on" with
    | error err =>
      rw [build_dates_ends_error ends_on starts_on fcd es months d a err hs ha hee hpe] at hb
      exact absurd hb (by simp)
    | ok e =>
      rw [build_dates_ends_branch ends_on starts_on fcd es months d a e hs ha hee hpe] at hb
      split at hb
      · obtain ⟨rfl⟩ := Except.ok.inj hb
        refine ⟨by simp, by simp, ?_⟩
        intro es' e' heq' hpe' hlt'
        rfl
      · rename_i hnemp
        obtain ⟨rfl⟩ := Except.ok.inj hb
        refine ⟨?_, ?_, ?_⟩
        · exact List.Chain'.prefix (chain'_lt_add_months a ham _)
            (List.takeWhile_prefix _)
        · exact List.Chain'.prefix (chain'_monthIdx_add_months a ham _)
            (List.takeWhile_prefix _)
        · intro es' e' heq' hpe' hlt'
          obtain rfl := Option.some.inj heq'
          rw [hpe] at hpe'
          obtain rfl := Except.ok.inj hpe'
          exact absurd (by rw [schedule_window_eq_nil hav hlt']; rfl) hnemp

theorem schedule_dates_invariant_witness :
    List.Chain' (· < ·)
      [(⟨2026, 5, 31⟩ : Date), ⟨2026, 6, 30⟩, ⟨2026, 7, 31⟩, ⟨2026, 8, 31⟩] :=
  (schedule_dates_invariant "2026-05-31" none (some "2026-08-31") none
    ⟨2026, 5, 31⟩ ⟨2026, 5, 31⟩ _ rfl rfl (by decide)).2.1

/-! ### Idempotence of `normalize_fee_lines` -/

lemma dropWhile_head_false {p : Char → Bool} {l : List Char} {c : Char} {rest : List Char}
    (h : l.dropWhile p = c :: rest) : p c = false := by
  induction l with
  | nil => exact absurd h (by simp)
  | cons a l ih =>
    rw [List.dropWhile_cons] at h
    split at h
    · exact ih h
    · obtain ⟨rfl, -⟩ := List.cons.inj h
      rename_i hp
      simpa using hp

lemma dropTrailWs_head {l : List Char} {c : Char} {rest : List Char}
    (h : dropTrailWs l = c :: rest) : ∃ t, l = c :: t := by
  cases l with
  | nil => exact absurd h (by simp [dropTrailWs])
  | cons a l =>
    rw [dropTrailWs] at h
    split at h
    · split at h
      · exact absurd h (by simp)
      · obtain ⟨rfl, -⟩ := List.cons.inj h
        exact ⟨l, rfl⟩
    · obtain ⟨rfl, -⟩ := List.cons.inj h
      exact ⟨l, rfl⟩

lemma dropTrailWs_idem (l : List Char) : dropTrailWs (dropTrailWs l) = dropTrailWs l := by
  induction l with
  | nil => rfl
  | cons c cs ih =>
    cases h : dropTrailWs cs with
    | nil =>
      by_cases hc : c.isWhitespace
      · simp [dropTrailWs, h, hc]
      · simp [dropTrailWs, h, hc]
    | cons x xs =>
      have h1 : dropTrailWs (c :: cs) = c :: x :: xs := by
        rw [dropTrailWs, h]
      have h2 : dropTrailWs (x :: xs) = x :: xs := by
        rw [← h]
        exact ih
      rw [h1, dropTrailWs, h2]

lemma stripChars_idem (cs : List Char) : stripChars (stripChars cs) = stripChars cs := by
  unfold stripChars
  cases h : dropTrailWs (cs.dropWhile Char.isWhitespace) with
  | nil => rfl
  | cons c rest =>
    obtain ⟨t, ht⟩ := dropTrailWs_head h
    have hc : c.isWhitespace = false := dropWhile_head_false (l := cs) ht
    have h1 : List.dropWhile Char.isWhitespace (c :: rest) = c :: rest := by
      rw [List.dropWhile_cons, hc]
      simp
    rw [h1, ← h]
    exact dropTrailWs_idem _

lemma pyStrip_idem (s : String) : pyStrip (pyStrip s) = pyStrip s := by
  unfold pyStrip
  rw [stripChars_idem]

lemma round2_round2 (q : ℚ) : round2 (round2 q) = round2 q := by
  unfold round2
  have h : ((round (q * 100) : ℤ) : ℚ) / 100 * 100 = ((round (q * 100) : ℤ) : ℚ) := by
    field_simp
  rw [h, round_intCast]

lemma round2_nonneg {q : ℚ} (h : 0 ≤ q) : 0 ≤ round2 q := by
  unfold round2
  apply div_nonneg _ (by norm_num)
  have h2 : (0 : ℤ) ≤ round (q * 100) := by
    rw [round_eq]
    refine Int.le_floor.mpr ?_
    push_cast
    have : (0 : ℚ) ≤ q * 100 := mul_nonneg h (by norm_num)
    linarith
  exact_mod_cast h2

lemma to_float_nonneg (v : Option ℚ) : 0 ≤ to_float v := by
  unfold to_float
  cases v with
  | none => norm_num
  | some a =>
    dsimp only
    split
    · norm_num
    · rename_i h
      exact not_lt.mp h

lemma normalize_pass_mem_normal :
    ∀ (L : List FeeLine) (idx : Int), 1 ≤ idx →
      ∀ x ∈ normalize_pass L idx, NormalLine x := by
  intro L
  induction L with
  | nil =>
    intro idx _ x hx
    simp [normalize_pass] at hx
  | cons line rest ih =>
    intro idx hidx x hx
    rw [normalize_pass] at hx
    split at hx
    · exact ih (idx + 1) (by omega) x hx
    · rename_i hft
      rcases List.mem_cons.mp hx with rfl | hx'
      · refine ⟨⟨pyStrip (line.fee_type.getD ""), rfl, hft, pyStrip_idem _⟩, ?_, ?_, ?_, ?_⟩
        · set ft := pyStrip (line.fee_type.getD "") with hftdef
          set label0 := (match line.label with
            | some l => if l = "" then pyTitle (pyReplaceUnderscore ft) else l
            | none => pyTitle (pyReplaceUnderscore ft)) with hl0
          by_cases hl1 : pyStrip label0 = ""
          · exact ⟨ft, by simp [hl1], hft, pyStrip_idem _⟩
          · exact ⟨pyStrip label0, by simp [hl1], hl1, pyStrip_idem _⟩
        · exact ⟨round2 (to_float line.amount), rfl,
            round2_nonneg (to_float_nonneg _), round2_round2 _⟩
        · refine ⟨to_int line.sort_order idx, rfl, ?_⟩
          unfold to_int
          cases line.sort_order with
          | none =>
            dsimp only
            omega
          | some p =>
            dsimp only
            split
            · assumption
            · omega
        · intro hmr
          have : pyStrip (line.fee_type.getD "") = "monthly_rent" :=
            Option.some.inj hmr
          simp [this]
      · exact ih (idx + 1) (by omega) x hx'

lemma normalize_pass_eq_self :
    ∀ (L : List FeeLine) (idx : Int), (∀ x ∈ L, NormalLine x) →
      normalize_pass L idx = L := by
  intro L
  induction L with
  | nil => intro idx _; rfl
  | cons x rest ih =>
    intro idx hall
    obtain ⟨⟨ft, hft, hftne, hftstrip⟩, ⟨lb, hlb, hlbne, hlbstrip⟩,
      ⟨am, ham, hamnn, hamround⟩, ⟨so, hso, hsopos⟩, hrec⟩ :=
      hall x (List.mem_cons_self _ _)
    have htail : normalize_pass rest (idx + 1) = rest :=
      ih (idx + 1) (fun y hy => hall y (List.mem_cons_of_mem _ hy))
    rw [normalize_pass]
    rw [hft]
    simp only [Option.getD_some, hftstrip]
    rw [if_neg hftne, htail]
    congr 1
    rw [hlb]
    simp only [if_neg hlbne, hlbstrip]
    rw [ham]
    have hamfl : to_float (some am) = am := by
      unfold to_float
      dsimp only
      rw [if_neg (not_lt.mpr hamnn)]
    rw [hamfl, hamround, hso]
    have hsoint : to_int (some so) idx = so := by
      unfold to_int
      dsimp only
      rw [if_pos hsopos]
    rw [hsoint]
    have hrc : (if ft = "monthly_rent" then true else x.is_recurring) = x.is_recurring := by
      by_cases hmr : ft = "monthly_rent"
      · rw [if_pos hmr, hrec (by rw [hft, hmr])]
      · rw [if_neg hmr]
    rw [hrc]
    cases x with
    | mk xf xl xa xrb xrc xs =>
      dsimp only at hft hlb ham hso ⊢
      rw [hft, hlb, ham, hso]

/-- C9: `normalize_fee_lines` is idempotent — applying it to its own output
returns that output unchanged. -/
theorem normalize_fee_lines_idempotent (lines : List FeeLine) :
    normalize_fee_lines (normalize_fee_lines lines) = normalize_fee_lines lines := by
  unfold normalize_fee_lines
  have hmem : ∀ x ∈ List.insertionSort fee_key_le (normalize_pass lines 1), NormalLine x := by
    intro x hx
    exact normalize_pass_mem_normal lines 1 (by norm_num) x
      ((List.perm_insertionSort fee_key_le (normalize_pass lines 1)).subset hx)
  rw [normalize_pass_eq_self _ 1 hmem]
  exact List.Sorted.insertionSort_eq (List.sorted_insertionSort fee_key_le _)

/-- C7: the CurrencyNormalizer contract.  For expenses (`supports_fx` true):
PYG passes the amount through, USD requires a positive `fx_rate_to_pyg`
(absent/non-numeric or `≤ 0` gives `(0, missing_fx_rate_to_pyg)`, positive
gives `amount * rate`), anything else is `unsupported_currency:<CODE>`.  For
collection/charge records (`supports_fx` false): only PYG converts; any other
currency — USD included — is `unsupported_currency:<CODE>`. -/
theorem currency_normalizer_contract (e : Expense) (c : String) (q : ℚ) :
    (norm_currency e.currency = "PYG" → _expense_amount_pyg e = (e.amount, none))
    ∧ (norm_currency e.currency = "USD" →
        (e.fx_rate_to_pyg = none →
          _expense_amount_pyg e = (0, some "missing_fx_rate_to_pyg"))
        ∧ (∀ v, e.fx_rate_to_pyg = some v → v ≤ 0 →
          _expense_amount_pyg e = (0, some "missing_fx_rate_to_pyg"))
        ∧ (∀ v, e.fx_rate_to_pyg = some v → 0 < v →
          _expense_amount_pyg e = (e.amount * v, none)))
    ∧ (norm_currency e.currency ≠ "PYG" → norm_currency e.currency ≠ "USD" →
        _expense_amount_pyg e = (0, some ("unsupported_currency:" ++ norm_currency e.currency)))
    ∧ (norm_currency c = "PYG" → _generic_amount_pyg c q = (q, none))
    ∧ (norm_currency c ≠ "PYG" →
        _generic_amount_pyg c q = (0, some ("unsupported_currency:" ++ norm_currency c))) := by
  refine ⟨?_, ?_, ?_, ?_, ?_⟩
  · intro h
    unfold _expense_amount_pyg
    rw [if_pos h]
  · intro h
    have hne : ¬ (norm_currency e.currency = "PYG") := by
      rw [h]; decide
    refine ⟨?_, ?_, ?_⟩
    · intro hfx
      unfold _expense_amount_pyg
      rw [if_neg hne, if_pos h, hfx]
    · intro v hfx hv
      unfold _expense_amount_pyg
      rw [if_neg hne, if_pos h, hfx]
      dsimp only
      rw [if_pos hv]
    · intro v hfx hv
      unfold _expense_amount_pyg
      rw [if_neg hne, if_pos h, hfx]
      dsimp only
      rw [if_neg (not_le.mpr hv)]
  · intro h1 h2
    unfold _expense_amount_pyg
    rw [if_neg h1, if_neg h2]
  · intro h
    unfold _generic_amount_pyg
    rw [if_pos h]
  · intro h
    unfold _generic_amount_pyg
    rw [if_neg h]

theorem currency_normalizer_contract_witness :
    _expense_amount_pyg
        { id := "e1", unit_id := none, property_id := none,
          expense_date := ⟨2026, 5, 2⟩, amount := 10, currency := " usd ",
          fx_rate_to_pyg := some 7300, category := "" }
      = (10 * 7300, none)
    ∧ _generic_amount_pyg "USD" 500
      = (0, some ("unsupported_currency:" ++ norm_currency "USD")) :=
  ⟨(currency_normalizer_contract _ "USD" 500).2.1 (by decide) |>.2.2 7300 rfl (by decide),
    (currency_normalizer_contract
      { id := "e1", unit_id := none, property_id := none,
        expense_date := ⟨2026, 5, 2⟩, amount := 10, currency := " usd ",
        fx_rate_to_pyg := some 7300, category := "" } "USD" 500).2.2.2.2 (by decide)⟩

/-! ### Warning bookkeeping lemmas -/

lemma add_warning_ne_nil (ws : List (String × List String)) (w id : String) :
    add_warning ws w id ≠ [] := by
  cases ws with
  | nil => simp [add_warning]
  | cons kv rest =>
    obtain ⟨k, ids⟩ := kv
    unfold add_warning
    split <;> simp

lemma warn_dict_eq_nil_iff (events : List (String × String)) :
    warn_dict events = [] ↔ events = [] := by
  constructor
  · intro h
    cases events with
    | nil => rfl
    | cons ev rest =>
      exfalso
      unfold warn_dict at h
      rw [List.foldl_cons] at h
      have : ∀ (l : List (String × String)) (ws : List (String × List String)), ws ≠ [] →
          l.foldl (fun ws e => add_warning ws e.1 e.2) ws ≠ [] := by
        intro l
        induction l with
        | nil => intro ws hws; simpa using hws
        | cons e l ih =>
          intro ws hws
          rw [List.foldl_cons]
          exact ih _ (add_warning_ne_nil _ _ _)
      exact this rest _ (add_warning_ne_nil _ _ _) h
  · intro h
    rw [h]
    rfl

lemma add_warning_lookup (ws : List (String × List String)) (w id k : String) :
    (add_warning ws w id).lookup k
      = if k = w then some (((ws.lookup w).getD []) ++ [id]) else ws.lookup k := by
  induction ws with
  | nil =>
    by_cases hk : k = w
    · simp [add_warning, List.lookup, hk]
    · simp [add_warning, List.lookup, hk, beq_false_of_ne hk]
  | cons kv rest ih =>
    obtain ⟨kk, ids⟩ := kv
    unfold add_warning
    by_cases hkw : kk = w
    · subst hkw
      rw [if_pos rfl]
      by_cases hk : k = kk
      · subst hk
        simp [List.lookup]
      · simp [List.lookup, beq_false_of_ne hk, hk]
    · rw [if_neg hkw]
      by_cases hk : k = kk
      · subst hk
        have hkw' : ¬ (k = w) := hkw
        simp [List.lookup, hkw']
      · simp only [List.lookup, beq_false_of_ne hk]
        rw [ih]
        by_cases hkw2 : k = w
        · subst hkw2
          simp [beq_false_of_ne (show k ≠ kk from fun h => hkw h.symm)]
        · simp [hkw2]

lemma foldl_add_warning_key (events : List (String × String))
    (ws : List (String × List String)) (k : String) :
    (((events.foldl (fun ws e => add_warning ws e.1 e.2) ws).lookup k).getD []).length
      = (((ws.lookup k).getD []).length)
        + (events.filter (fun ev => ev.1 == k)).length := by
  induction events generalizing ws with
  | nil => simp
  | cons ev rest ih =>
    obtain ⟨w, id⟩ := ev
    rw [List.foldl_cons, ih, add_warning_lookup]
    by_cases hk : k = w
    · subst hk
      simp [List.filter_cons]
      omega
    · rw [if_neg hk]
      have : (w == k) = false := beq_false_of_ne (fun h => hk h.symm)
      simp [List.filter_cons, this]

lemma add_warning_unsup_sum (ws : List (String × List String)) (w id : String) :
    ((add_warning ws w id).map
        (fun kv => if startsWithUnsupported kv.1 then kv.2.length else 0)).sum
      = (ws.map (fun kv => if startsWithUnsupported kv.1 then kv.2.length else 0)).sum
        + (if startsWithUnsupported w then 1 else 0) := by
  induction ws with
  | nil =>
    by_cases hw : startsWithUnsupported w <;> simp [add_warning, hw]
  | cons kv rest ih =>
    obtain ⟨kk, ids⟩ := kv
    unfold add_warning
    by_cases hkw : kk = w
    · subst hkw
      rw [if_pos rfl]
      by_cases hw : startsWithUnsupported kk
      all_goals simp [hw]
      all_goals omega
    · rw [if_neg hkw]
      simp only [List.map_cons, List.sum_cons, ih]
      omega

lemma foldl_add_warning_unsup (events : List (String × String))
    (ws : List (String × List String)) :
    ((events.foldl (fun ws e => add_warning ws e.1 e.2) ws).map
        (fun kv => if startsWithUnsupported kv.1 then kv.2.length else 0)).sum
      = ((ws.map (fun kv => if startsWithUnsupported kv.1 then kv.2.length else 0)).sum)
        + (events.filter (fun ev => startsWithUnsupported ev.1)).length := by
  induction events generalizing ws with
  | nil => simp
  | cons ev rest ih =>
    obtain ⟨w, id⟩ := ev
    rw [List.foldl_cons, ih, add_warning_unsup_sum]
    by_cases hw : startsWithUnsupported w
    all_goals simp [List.filter_cons, hw]
    all_goals omega

lemma collect_samples_length_le (l acc : List String) (h : acc.length ≤ 8) :
    (collect_samples l acc).length ≤ 8 := by
  induction l generalizing acc with
  | nil => simpa [collect_samples] using h
  | cons id rest ih =>
    unfold collect_samples
    split
    · rename_i hcond
      exact ih _ (by simp; omega)
    · exact ih _ h

lemma statement_error_counts (events : List (String × String)) :
    (statement_error (warn_dict events)).missing_fx
        = (events.filter (fun ev => ev.1 == "missing_fx_rate_to_pyg")).length
      ∧ (statement_error (warn_dict events)).unsupported
        = (events.filter (fun ev => startsWithUnsupported ev.1)).length
      ∧ (statement_error (warn_dict events)).samples.length ≤ 8 := by
  refine ⟨?_, ?_, ?_⟩
  · unfold statement_error warn_dict
    simpa using foldl_add_warning_key events [] "missing_fx_rate_to_pyg"
  · unfold statement_error warn_dict
    simpa using foldl_add_warning_unsup events []
  · unfold statement_error
    exact collect_samples_length_le _ _ (by simp)

/-! ### Per-phase warning characterizations -/

lemma expense_phase_events_nil (s e : Date) (L : List Expense) :
    (expense_phase s e L).events = [] ↔
      ∀ x ∈ L, s ≤ x.expense_date → x.expense_date ≤ e →
        (_expense_amount_pyg x).2 = none := by
  induction L with
  | nil => simp [expense_phase]
  | cons x rest ih =>
    rw [expense_phase]
    split
    · rename_i hin
      show ((match (_expense_amount_pyg x).2 with
        | some w => [(w, x.id)]
        | none => []) ++ (expense_phase s e rest).events) = [] ↔ _
      rw [List.append_eq_nil]
      constructor
      · rintro ⟨h1, h2⟩ y hy
        rcases List.mem_cons.mp hy with rfl | hy'
        · intro _ _
          cases hw : (_expense_amount_pyg y).2 with
          | none => rfl
          | some w =>
            rw [hw] at h1
            exact absurd h1 (by simp)
        · exact (ih.mp h2) y hy'
      · intro hall
        refine ⟨?_, ih.mpr (fun y hy => hall y (List.mem_cons_of_mem _ hy))⟩
        rw [hall x (List.mem_cons_self _ _) hin.1 hin.2]
    · rename_i hnin
      rw [ih]
      constructor
      · intro hall y hy
        rcases List.mem_cons.mp hy with rfl | hy'
        · intro hs he
          exact absurd ⟨hs, he⟩ hnin
        · exact hall y hy'
      · intro hall y hy
        exact hall y (List.mem_cons_of_mem _ hy)

lemma collection_phase_events_nil (s e : Date) (L : List CollectionRecord) :
    (collection_phase s e L).events = [] ↔
      ∀ c ∈ L, c.status = "paid" → s ≤ effective_paid_on c → effective_paid_on c ≤ e →
        (_generic_amount_pyg c.currency c.amount).2 = none := by
  induction L with
  | nil => simp [collection_phase]
  | cons c rest ih =>
    rw [collection_phase]
    split
    · rename_i hnp
      rw [ih]
      constructor
      · intro hall y hy
        rcases List.mem_cons.mp hy with rfl | hy'
        · intro hp
          exact absurd hp hnp
        · exact hall y hy'
      · intro hall y hy
        exact hall y (List.mem_cons_of_mem _ hy)
    · rename_i hp
      have hps : c.status = "paid" := not_not.mp hp
      dsimp only
      by_cases hin : s ≤ effective_paid_on c ∧ effective_paid_on c ≤ e
      · rw [if_pos hin]
        show ((match (_generic_amount_pyg c.currency c.amount).2 with
          | some w => [(w, c.id)]
          | none => []) ++ (collection_phase s e rest).events) = [] ↔ _
        rw [List.append_eq_nil]
        constructor
        · rintro ⟨h1, h2⟩ y hy
          rcases List.mem_cons.mp hy with rfl | hy'
          · intro _ _ _
            cases hw : (_generic_amount_pyg y.currency y.amount).2 with
            | none => rfl
            | some w =>
              rw [hw] at h1
              exact absurd h1 (by simp)
          · exact (ih.mp h2) y hy'
        · intro hall
          refine ⟨?_, ih.mpr (fun y hy => hall y (List.mem_cons_of_mem _ hy))⟩
          rw [hall c (List.mem_cons_self _ _) hps hin.1 hin.2]
      · rw [if_neg hin]
        rw [ih]
        constructor
        · intro hall y hy
          rcases List.mem_cons.mp hy with rfl | hy'
          · intro _ hs he
            exact absurd ⟨hs, he⟩ hin
          · exact hall y hy'
        · intro hall y hy
          exact hall y (List.mem_cons_of_mem _ hy)

lemma charge_phase_events_nil (s e : Date) (L : List LeaseCharge) :
    (charge_phase s e L).events = [] ↔
      ∀ ch ∈ L, s ≤ ch.charge_date → ch.charge_date ≤ e →
        (ch.charge_type = "service_fee_flat" ∨ ch.charge_type = "admin_fee") →
        (_generic_amount_pyg ch.currency ch.amount).2 = none := by
  induction L with
  | nil => simp [charge_phase]
  | cons ch rest ih =>
    rw [charge_phase]
    split
    · rename_i hin
      split
      · rename_i hty
        show ((match (_generic_amount_pyg ch.currency ch.amount).2 with
          | some w => [(w, ch.id)]
          | none => []) ++ (charge_phase s e rest).events) = [] ↔ _
        rw [List.append_eq_nil]
        constructor
        · rintro ⟨h1, h2⟩ y hy
          rcases List.mem_cons.mp hy with rfl | hy'
          · intro _ _ _
            cases hw : (_generic_amount_pyg y.currency y.amount).2 with
            | none => rfl
            | some w =>
              rw [hw] at h1
              exact absurd h1 (by simp)
          · exact (ih.mp h2) y hy'
        · intro hall
          refine ⟨?_, ih.mpr (fun y hy => hall y (List.mem_cons_of_mem _ hy))⟩
          rw [hall ch (List.mem_cons_self _ _) hin.1 hin.2 hty]
      · rename_i hnty
        rw [ih]
        constructor
        · intro hall y hy
          rcases List.mem_cons.mp hy with rfl | hy'
          · intro _ _ hty
            exact absurd hty hnty
          · exact hall y hy'
        · intro hall y hy
          exact hall y (List.mem_cons_of_mem _ hy)
    · rename_i hnin
      rw [ih]
      constructor
      · intro hall y hy
        rcases List.mem_cons.mp hy with rfl | hy'
        · intro hs he _
          exact absurd ⟨hs, he⟩ hnin
        · exact hall y hy'
      · intro hall y hy
        exact hall y (List.mem_cons_of_mem _ hy)

/-- C2: the statement build is all-or-nothing.  If the scoped in-period
expenses, paid collections, or service/admin charges produce any
currency-normalization warning, the build fails with a `StatementError`
reporting the count per warning kind and at most 8 sample record ids, and no
breakdown is returned; with no warning it succeeds.  The absence of warnings
is exactly per-record normalizability. -/
theorem statement_all_or_nothing
    (units : List UnitRow) (reservations : List Reservation) (expenses : List Expense)
    (leases : List Lease) (lease_charges : List LeaseCharge)
    (collections : List CollectionRecord) (property_id unit_id : Option String)
    (start end_ : Date) :
    (stage_events (statement_stage units reservations expenses leases lease_charges
          collections property_id unit_id start end_) ≠ [] →
        _build_statement_breakdown units reservations expenses leases lease_charges
            collections property_id unit_id start end_
          = Except.error (statement_error (warn_dict (stage_events (statement_stage units
              reservations expenses leases lease_charges collections property_id unit_id
              start end_))))
        ∧ (statement_error (warn_dict (stage_events (statement_stage units reservations
              expenses leases lease_charges collections property_id unit_id
              start end_)))).missing_fx
            = ((stage_events (statement_stage units reservations expenses leases
                lease_charges collections property_id unit_id start end_)).filter
                (fun ev => ev.1 == "missing_fx_rate_to_pyg")).length
        ∧ (statement_error (warn_dict (stage_events (statement_stage units reservations
              expenses leases lease_charges collections property_id unit_id
              start end_)))).unsupported
            = ((stage_events (statement_stage units reservations expenses leases
                lease_charges collections property_id unit_id start end_)).filter
                (fun ev => startsWithUnsupported ev.1)).length
        ∧ (statement_error (warn_dict (stage_events (statement_stage units reservations
              expenses leases lease_charges collections property_id unit_id
              start end_)))).samples.length ≤ 8)
    ∧ (stage_events (statement_stage units reservations expenses leases lease_charges
          collections property_id unit_id start end_) = [] →
        ∃ bd, _build_statement_breakdown units reservations expenses leases lease_charges
            collections property_id unit_id start end_ = Except.ok bd)
    ∧ (stage_events (statement_stage units reservations expenses leases lease_charges
          collections property_id unit_id start end_) = [] ↔
        (∀ x ∈ (statement_stage units reservations expenses leases lease_charges
            collections property_id unit_id start end_).scoped_expenses,
          start ≤ x.expense_date → x.expense_date ≤ end_ →
            (_expense_amount_pyg x).2 = none)
        ∧ (∀ c ∈ (statement_stage units reservations expenses leases lease_charges
            collections property_id unit_id start end_).scoped_collections,
          c.status = "paid" → start ≤ effective_paid_on c → effective_paid_on c ≤ end_ →
            (_generic_amount_pyg c.currency c.amount).2 = none)
        ∧ (∀ ch ∈ (statement_stage units reservations expenses leases lease_charges
            collections property_id unit_id start end_).scoped_charges,
          start ≤ ch.charge_date → ch.charge_date ≤ end_ →
            (ch.charge_type = "service_fee_flat" ∨ ch.charge_type = "admin_fee") →
            (_generic_amount_pyg ch.currency ch.amount).2 = none)) := by
  refine ⟨?_, ?_, ?_⟩
  · intro hne
    have hws : warn_dict (stage_events (statement_stage units reservations expenses leases
        lease_charges collections property_id unit_id start end_)) ≠ [] :=
      fun h => hne ((warn_dict_eq_nil_iff _).mp h)
    refine ⟨?_, (statement_error_counts _).1, (statement_error_counts _).2.1,
      (statement_error_counts _).2.2⟩
    unfold _build_statement_breakdown
    rw [if_pos hws]
  · intro hnil
    have hws : ¬ (warn_dict (stage_events (statement_stage units reservations expenses leases
        lease_charges collections property_id unit_id start end_)) ≠ []) :=
      not_not.mpr ((warn_dict_eq_nil_iff _).mpr hnil)
    unfold _build_statement_breakdown
    rw [if_neg hws]
    exact ⟨_, rfl⟩
  · unfold stage_events
    rw [List.append_eq_nil, List.append_eq_nil]
    rw [and_assoc]
    refine and_congr ?_ (and_congr ?_ ?_)
    · simp only [statement_stage]
      exact expense_phase_events_nil start end_ _
    · simp only [statement_stage]
      exact collection_phase_events_nil start end_ _
    · simp only [statement_stage]
      exact charge_phase_events_nil start end_ _

theorem statement_all_or_nothing_witness :
    _build_statement_breakdown [] [] [] [⟨"lease-1", none, none, 1000⟩] []
        [⟨"c9", "lease-1", "paid", ⟨2026, 5, 3⟩, none, 500, "USD"⟩] none none
        ⟨2026, 5, 1⟩ ⟨2026, 5, 31⟩
      = Except.error (statement_error (warn_dict (stage_events (statement_stage [] [] []
          [⟨"lease-1", none, none, 1000⟩] []
          [⟨"c9", "lease-1", "paid", ⟨2026, 5, 3⟩, none, 500, "USD"⟩] none none
          ⟨2026, 5, 1⟩ ⟨2026, 5, 31⟩)))) :=
  ((statement_all_or_nothing [] [] [] [⟨"lease-1", none, none, 1000⟩] []
    [⟨"c9", "lease-1", "paid", ⟨2026, 5, 3⟩, none, 500, "USD"⟩] none none
    ⟨2026, 5, 1⟩ ⟨2026, 5, 31⟩).1 (by decide)).1

/-! ### Exactly-once collection fee attribution -/

lemma collection_fees_phase_fst (leases : List Lease) (l : List String) :
    (collection_fees_phase leases l).1
      = (l.map (fun lid => match lease_lookup leases lid with
          | some lease => lease.platform_fee
          | none => 0)).sum := by
  induction l with
  | nil => rfl
  | cons lid rest ih =>
    rw [collection_fees_phase]
    dsimp only
    rw [ih, List.map_cons, List.sum_cons]

lemma list_toFinset_sum {α β : Type} [DecidableEq α] [AddCommMonoid β]
    (l : List α) (f : α → β) :
    l.toFinset.sum f = (l.dedup.map f).sum := by
  show (Multiset.map f l.toFinset.val).sum = _
  have hv : (l.toFinset).val = (l.dedup : Multiset α) := by
    simp [List.toFinset, Multiset.toFinset, Multiset.coe_dedup]
  rw [hv]
  rfl

lemma dedup_toFinset {α : Type} [DecidableEq α] (l : List α) :
    l.dedup.toFinset = l.toFinset := by
  ext a
  simp [List.mem_toFinset, List.mem_dedup]

/-- C3: `collection_fees` charges each lease with an in-period paid collection
exactly once: it equals the sum, over the *set* of paid lease ids, of that
lease's `platform_fee` — independent of how many of its collections were paid;
and the rounded sum for platform fees 1000 and 700 is 1700. -/
theorem collection_fees_exactly_once
    (units : List UnitRow) (reservations : List Reservation) (expenses : List Expense)
    (leases : List Lease) (lease_charges : List LeaseCharge)
    (collections : List CollectionRecord) (property_id unit_id : Option String)
    (start end_ : Date) :
    Except.map Breakdown.collection_fees
        (_build_statement_breakdown units reservations expenses leases lease_charges
          collections property_id unit_id start end_)
      = Except.map (fun _ => round2 (((statement_stage units reservations expenses leases
            lease_charges collections property_id unit_id start end_).cphase.paid_ids).toFinset.sum
            (fun lid => match lease_lookup (statement_stage units reservations expenses leases
                lease_charges collections property_id unit_id start end_).scoped_leases lid with
              | some lease => lease.platform_fee
              | none => 0)))
          (_build_statement_breakdown units reservations expenses leases lease_charges
            collections property_id unit_id start end_)
    ∧ round2 ((1000 : ℚ) + 700) = 1700 := by
  constructor
  · have hfee : (statement_stage units reservations expenses leases lease_charges
        collections property_id unit_id start end_).collection_fees
        = ((statement_stage units reservations expenses leases lease_charges
            collections property_id unit_id start end_).cphase.paid_ids).toFinset.sum
            (fun lid => match lease_lookup (statement_stage units reservations expenses leases
                lease_charges collections property_id unit_id start end_).scoped_leases lid with
              | some lease => lease.platform_fee
              | none => 0) := by
      simp only [statement_stage]
      rw [collection_fees_phase_fst, list_toFinset_sum]
    unfold _build_statement_breakdown
    dsimp only
    split
    · rfl
    · simp only [Except.map]
      rw [hfee]
  · have h : ((1000 : ℚ) + 700) * 100 = ((170000 : ℤ) : ℚ) := by norm_num
    unfold round2
    rw [h, round_intCast]
    norm_num

/-! ### Reservation inclusion -/

lemma filter_and_of_filter_filter {α : Type} (p q : α → Bool) (l : List α) :
    (l.filter q).filter p = l.filter (fun a => q a && p a) := by
  induction l with
  | nil => rfl
  | cons a l ih =>
    by_cases hq : q a
    · by_cases hp : p a
      · simp [List.filter_cons, hq, hp, ih]
      · simp [List.filter_cons, hq, hp, ih]
    · simp [List.filter_cons, hq, ih]

lemma reservation_phase_sums (s e : Date) (L : List Reservation) :
    (reservation_phase s e L).gross
        = ((L.filter (fun r => !(decide (r.check_out_date ≤ s)
            || decide (e < r.check_in_date)))).map Reservation.total_amount).sum
      ∧ (reservation_phase s e L).platform
        = ((L.filter (fun r => !(decide (r.check_out_date ≤ s)
            || decide (e < r.check_in_date)))).map Reservation.platform_fee).sum
      ∧ (reservation_phase s e L).taxes
        = ((L.filter (fun r => !(decide (r.check_out_date ≤ s)
            || decide (e < r.check_in_date)))).map Reservation.tax_amount).sum := by
  induction L with
  | nil => exact ⟨rfl, rfl, rfl⟩
  | cons r rest ih =>
    rw [reservation_phase]
    by_cases hex : r.check_out_date ≤ s ∨ e < r.check_in_date
    · rw [if_pos hex]
      have hp : (!(decide (r.check_out_date ≤ s) || decide (e < r.check_in_date))) = false := by
        rcases hex with h | h <;> simp [h]
      simp only [List.filter_cons, hp, Bool.false_eq_true, if_false]
      exact ih
    · rw [if_neg hex]
      have hno := not_or.mp hex
      have hp : (!(decide (r.check_out_date ≤ s) || decide (e < r.check_in_date))) = true := by
        simp [hno.1, hno.2]
      simp only [List.filter_cons, hp, if_true, List.map_cons, List.sum_cons]
      exact ⟨by rw [ih.1], by rw [ih.2.1], by rw [ih.2.2]⟩

/-- C6: a reservation contributes to `gross_revenue`, `platform_fees` and
`taxes_collected` exactly when its status is reportable and it survives the
exclusion test `check_out ≤ period_start ∨ check_in > period_end`; an included
reservation contributes its full `total_amount`, `platform_fee` and
`tax_amount` with no pro-rating. -/
theorem reservation_inclusion_rule
    (units : List UnitRow) (reservations : List Reservation) (expenses : List Expense)
    (leases : List Lease) (lease_charges : List LeaseCharge)
    (collections : List CollectionRecord) (start end_ : Date) :
    Except.map Breakdown.gross_revenue
        (_build_statement_breakdown units reservations expenses leases lease_charges
          collections none none start end_)
      = Except.map (fun _ => round2 (((reservations.filter (fun r =>
            REPORTABLE_STATUSES.contains r.status
              && !(decide (r.check_out_date ≤ start) || decide (end_ < r.check_in_date)))).map
            Reservation.total_amount).sum))
          (_build_statement_breakdown units reservations expenses leases lease_charges
            collections none none start end_)
    ∧ Except.map Breakdown.platform_fees
        (_build_statement_breakdown units reservations expenses leases lease_charges
          collections none none start end_)
      = Except.map (fun _ => round2 (((reservations.filter (fun r =>
            REPORTABLE_STATUSES.contains r.status
              && !(decide (r.check_out_date ≤ start) || decide (end_ < r.check_in_date)))).map
            Reservation.platform_fee).sum))
          (_build_statement_breakdown units reservations expenses leases lease_charges
            collections none none start end_)
    ∧ Except.map Breakdown.taxes_collected
        (_build_statement_breakdown units reservations expenses leases lease_charges
          collections none none start end_)
      = Except.map (fun _ => round2 (((reservations.filter (fun r =>
            REPORTABLE_STATUSES.contains r.status
              && !(decide (r.check_out_date ≤ start) || decide (end_ < r.check_in_date)))).map
            Reservation.tax_amount).sum))
          (_build_statement_breakdown units reservations expenses leases lease_charges
            collections none none start end_) := by
  have hscope : scope_reservations reservations none none
      = reservations.filter (fun r => REPORTABLE_STATUSES.contains r.status) := rfl
  have hsums := reservation_phase_sums start end_ (scope_reservations reservations none none)
  rw [hscope, filter_and_of_filter_filter] at hsums
  have hg : (statement_stage units reservations expenses leases lease_charges
      collections none none start end_).rphase.gross
      = ((reservations.filter (fun r => REPORTABLE_STATUSES.contains r.status
          && !(decide (r.check_out_date ≤ start) || decide (end_ < r.check_in_date)))).map
          Reservation.total_amount).sum := by
    simp only [statement_stage]
    exact hsums.1
  have hp : (statement_stage units reservations expenses leases lease_charges
      collections none none start end_).rphase.platform
      = ((reservations.filter (fun r => REPORTABLE_STATUSES.contains r.status
          && !(decide (r.check_out_date ≤ start) || decide (end_ < r.check_in_date)))).map
          Reservation.platform_fee).sum := by
    simp only [statement_stage]
    exact hsums.2.1
  have ht : (statement_stage units reservations expenses leases lease_charges
      collections none none start end_).rphase.taxes
      = ((reservations.filter (fun r => REPORTABLE_STATUSES.contains r.status
          && !(decide (r.check_out_date ≤ start) || decide (end_ < r.check_in_date)))).map
          Reservation.tax_amount).sum := by
    simp only [statement_stage]
    exact hsums.2.2
  unfold _build_statement_breakdown
  dsimp only
  refine ⟨?_, ?_, ?_⟩ <;> split <;>
    first
      | rfl
      | (simp only [Except.map]; first | rw [hg] | rw [hp] | rw [ht])

lemma filter_map_invariant {α : Type} (g : α → α) (p : α → Bool)
    (hp : ∀ a, p (g a) = p a) (l : List α) :
    (l.map g).filter p = (l.filter p).map g := by
  induction l with
  | nil => rfl
  | cons a l ih =>
    by_cases h : p a
    · simp [List.filter_cons, hp, h, ih]
    · simp [List.filter_cons, hp, h, ih]

lemma scope_reservations_set_currency (f : Reservation → String)
    (rs : List Reservation) (allowed : Option (List String)) (uid : Option String) :
    scope_reservations (rs.map (set_currency f)) allowed uid
      = (scope_reservations rs allowed uid).map (set_currency f) := by
  have hstat := filter_map_invariant (set_currency f)
    (fun r => REPORTABLE_STATUSES.contains r.status) (fun r => rfl) rs
  cases uid with
  | some u =>
    unfold scope_reservations
    dsimp only
    rw [hstat, filter_map_invariant (set_currency f)
      (fun r => r.unit_id == some u) (fun r => rfl)]
  | none =>
    cases allowed with
    | some ids =>
      unfold scope_reservations
      dsimp only
      rw [hstat, filter_map_invariant (set_currency f)
        (fun r => match r.unit_id with
          | some u => ids.contains u
          | none => false) (fun r => rfl)]
    | none =>
      unfold scope_reservations
      dsimp only
      rw [hstat]

lemma reservation_phase_set_currency (f : Reservation → String) (s e : Date)
    (L : List Reservation) :
    reservation_phase s e (L.map (set_currency f)) = reservation_phase s e L := by
  induction L with
  | nil => rfl
  | cons r rest ih =>
    rw [List.map_cons, reservation_phase, reservation_phase]
    dsimp only [set_currency]
    by_cases hex : r.check_out_date ≤ s ∨ e < r.check_in_date
    · rw [if_pos hex, if_pos hex]
      exact ih
    · rw [if_neg hex, if_neg hex, ih]

/-- C10 (implicit): reservation amounts bypass currency normalization.  The
whole build result is invariant under arbitrary rewrites of every
reservation's `currency` field, and whether (and with which error) the build
fails never depends on the reservations at all — so a USD-denominated
reservation contributes its raw amounts and can never fail the build. -/
theorem reservations_bypass_currency_normalization
    (units : List UnitRow) (f : Reservation → String)
    (reservations rs1 rs2 : List Reservation) (expenses : List Expense)
    (leases : List Lease) (lease_charges : List LeaseCharge)
    (collections : List CollectionRecord) (property_id unit_id : Option String)
    (start end_ : Date) :
    _build_statement_breakdown units (reservations.map (set_currency f)) expenses leases
        lease_charges collections property_id unit_id start end_
      = _build_statement_breakdown units reservations expenses leases
        lease_charges collections property_id unit_id start end_
    ∧ exceptErr (_build_statement_breakdown units rs1 expenses leases
        lease_charges collections property_id unit_id start end_)
      = exceptErr (_build_statement_breakdown units rs2 expenses leases
        lease_charges collections property_id unit_id start end_) := by
  constructor
  · unfold _build_statement_breakdown
    simp only [statement_stage, stage_events]
    rw [scope_reservations_set_currency, reservation_phase_set_currency]
  · unfold _build_statement_breakdown
    simp only [statement_stage, stage_events]
    split <;> split <;> split <;> rfl

theorem lookup_append_or {β : Type} (l₁ l₂ : List (String × β)) (k : String) :
    (l₁ ++ l₂).lookup k = ((l₁.lookup k).or (l₂.lookup k)) := by
  induction l₁ with
  | nil => rfl
  | cons a l ih =>
    obtain ⟨k', v⟩ := a
    simp only [List.cons_append, List.lookup]
    cases h : k == k'
    · simpa [h] using ih
    · rfl

theorem lookup_singleton {β : Type} (k k' : String) (v : β) :
    List.lookup k [(k', v)] = if k = k' then some v else none := by
  by_cases h : k = k'
  · simp [h]
  · simp [h, beq_false_of_ne h]

theorem build_charge_index_lookup (dks : List String) (rows : List ChargeRow)
    (idx : List (String × ChargeRow)) (d : String) :
    (build_charge_index dks rows idx).lookup d
      = ((idx.lookup d).or
          (if d ∈ dks then (rows.filter (charge_matches d)).head? else none)) := by
  induction rows generalizing idx with
  | nil =>
    have h : (if d ∈ dks then ([] : List ChargeRow).head? else none) = none := by
      split <;> rfl
    rw [build_charge_index, List.filter_nil, h]
    cases idx.lookup d <;> rfl
  | cons c rest ih =>
    rw [build_charge_index]
    split
    · rename_i h
      obtain ⟨ht, hin, hnone⟩ := h
      rw [ih, lookup_append_or]
      by_cases hd : d = c.charge_date
      · subst hd
        rw [Option.isNone_iff_eq_none] at hnone
        have hm : charge_matches c.charge_date c = true := by
          simp [charge_matches, ht]
        simp [hnone, lookup_singleton, hin, List.filter_cons, hm]
      · have hm : charge_matches d c = false := by
          simp only [charge_matches, Bool.and_eq_false_iff]
          right
          simpa [beq_eq_false_iff_ne] using fun h => hd h.symm
        simp [lookup_singleton, hd, List.filter_cons, hm]
    · rename_i h
      rw [ih]
      by_cases hin : d ∈ dks
      · simp only [if_pos hin]
        by_cases hm : charge_matches d c = true
        · have ht : c.charge_type = "monthly_rent" := by
            have := hm
            simp only [charge_matches, Bool.and_eq_true, beq_iff_eq] at this
            exact this.1
          have hd : c.charge_date = d := by
            have := hm
            simp only [charge_matches, Bool.and_eq_true, beq_iff_eq] at this
            exact this.2
          have hs : ¬ (idx.lookup c.charge_date).isNone := fun hn =>
            h ⟨ht, hd ▸ hin, hn⟩
          rw [hd] at hs
          cases hl : idx.lookup d with
          | none => exact absurd (by rw [hl]; rfl) hs
          | some v => simp [List.filter_cons, hm]
        · have hm' : charge_matches d c = false := by
            cases hq : charge_matches d c
            · rfl
            · exact absurd hq hm
          simp [List.filter_cons, hm']
      · simp [hin]

theorem build_collection_index_lookup (dks : List String) (rows : List CollectionRow)
    (idx : List (String × CollectionRow)) (d : String) :
    (build_collection_index dks rows idx).lookup d
      = ((idx.lookup d).or
          (if d ∈ dks then (rows.filter (coll_matches d)).head? else none)) := by
  induction rows generalizing idx with
  | nil =>
    have h : (if d ∈ dks then ([] : List CollectionRow).head? else none) = none := by
      split <;> rfl
    rw [build_collection_index, List.filter_nil, h]
    cases idx.lookup d <;> rfl
  | cons c rest ih =>
    rw [build_collection_index]
    split
    · rename_i h
      obtain ⟨hin, hnone⟩ := h
      rw [ih, lookup_append_or]
      by_cases hd : d = c.due_date
      · subst hd
        rw [Option.isNone_iff_eq_none] at hnone
        have hm : coll_matches c.due_date c = true := by simp [coll_matches]
        simp [hnone, lookup_singleton, hin, List.filter_cons, hm]
      · have hm : coll_matches d c = false := by
          simpa [coll_matches, beq_eq_false_iff_ne] using fun h => hd h.symm
        simp [lookup_singleton, hd, List.filter_cons, hm]
    · rename_i h
      rw [ih]
      by_cases hin : d ∈ dks
      · simp only [if_pos hin]
        by_cases hm : coll_matches d c = true
        · have hd : c.due_date = d := by
            simpa [coll_matches] using hm
          have hs : ¬ (idx.lookup c.due_date).isNone := fun hn => h ⟨hd ▸ hin, hn⟩
          rw [hd] at hs
          cases hl : idx.lookup d with
          | none => exact absurd (by rw [hl]; rfl) hs
          | some v => simp [List.filter_cons, hm]
        · have hm' : coll_matches d c = false := by
            cases hq : coll_matches d c
            · rfl
            · exact absurd hq hm
          simp [List.filter_cons, hm']
      · simp [hin]

theorem build_charge_index_mem (dks : List String) (rows : List ChargeRow)
    (idx : List (String × ChargeRow)) :
    ∀ kv ∈ build_charge_index dks rows idx, kv ∈ idx ∨
      (kv.2 ∈ rows ∧ kv.2.charge_type = "monthly_rent" ∧ kv.2.charge_date = kv.1) := by
  induction rows generalizing idx with
  | nil =>
    intro kv hkv
    rw [build_charge_index] at hkv
    exact Or.inl hkv
  | cons c rest ih =>
    intro kv hkv
    rw [build_charge_index] at hkv
    split at hkv
    · rename_i h
      rcases ih _ kv hkv with hidx | hrest
      · rcases List.mem_append.mp hidx with hidx | hone
        · exact Or.inl hidx
        · rcases List.mem_singleton.mp hone with rfl
          exact Or.inr ⟨List.mem_cons_self _ _, h.1, rfl⟩
      · exact Or.inr ⟨List.mem_cons_of_mem _ hrest.1, hrest.2⟩
    · rcases ih _ kv hkv with hidx | hrest
      · exact Or.inl hidx
      · exact Or.inr ⟨List.mem_cons_of_mem _ hrest.1, hrest.2⟩

theorem build_collection_index_mem (dks : List String) (rows : List CollectionRow)
    (idx : List (String × CollectionRow)) :
    ∀ kv ∈ build_collection_index dks rows idx, kv ∈ idx ∨
      (kv.2 ∈ rows ∧ kv.2.due_date = kv.1) := by
  induction rows generalizing idx with
  | nil =>
    intro kv hkv
    rw [build_collection_index] at hkv
    exact Or.inl hkv
  | cons c rest ih =>
    intro kv hkv
    rw [build_collection_index] at hkv
    split at hkv
    · rcases ih _ kv hkv with hidx | hrest
      · rcases List.mem_append.mp hidx with hidx | hone
        · exact Or.inl hidx
        · rcases List.mem_singleton.mp hone with rfl
          exact Or.inr ⟨List.mem_cons_self _ _, rfl⟩
      · exact Or.inr ⟨List.mem_cons_of_mem _ hrest.1, hrest.2⟩
    · rcases ih _ kv hkv with hidx | hrest
      · exact Or.inl hidx
      · exact Or.inr ⟨List.mem_cons_of_mem _ hrest.1, hrest.2⟩

theorem orderedInsert_filter_key {α : Type} (key : α → String) (p : α → Bool)
    [DecidableRel (fun x y : α => key x ≤ key y)]
    (hp : ∀ a b, p a = true → p b = true → key a ≤ key b)
    (a : α) (l : List α) :
    (List.orderedInsert (fun x y => key x ≤ key y) a l).filter p
      = if p a then a :: l.filter p else l.filter p := by
  induction l with
  | nil => simp [List.orderedInsert, List.filter_cons]
  | cons b l ih =>
    rw [List.orderedInsert]
    split
    · rw [List.filter_cons]
    · rename_i hab
      rw [List.filter_cons, ih, List.filter_cons]
      by_cases hpa : p a = true
      · have hpb : p b = false := by
          cases hq : p b
          · rfl
          · exact absurd (hp a b hpa hq) hab
        simp [hpa, hpb]
      · have hpa' : p a = false := by
          cases hq : p a
          · rfl
          · exact absurd hq hpa
        simp [hpa']

theorem insertionSort_filter_key {α : Type} (key : α → String) (p : α → Bool)
    [DecidableRel (fun x y : α => key x ≤ key y)]
    (hp : ∀ a b, p a = true → p b = true → key a ≤ key b) (l : List α) :
    (List.insertionSort (fun x y => key x ≤ key y) l).filter p = l.filter p := by
  induction l with
  | nil => rfl
  | cons a l ih =>
    rw [List.insertionSort, orderedInsert_filter_key key p hp, ih, List.filter_cons]

theorem list_charge_rows_all (σ : Store) (L : String) (limit : Nat) :
    ∀ c ∈ list_charge_rows σ L limit, c ∈ σ.charges ∧ c.lease_id = L := by
  intro c hc
  unfold list_charge_rows at hc
  have h1 := List.take_subset _ _ hc
  have h2 := (List.perm_insertionSort _ _).mem_iff.mp h1
  rw [List.mem_filter] at h2
  exact ⟨h2.1, by simpa using h2.2⟩

theorem list_collection_rows_all (σ : Store) (L : String) (limit : Nat) :
    ∀ c ∈ list_collection_rows σ L limit, c ∈ σ.collections ∧ c.lease_id = L := by
  intro c hc
  unfold list_collection_rows at hc
  have h1 := List.take_subset _ _ hc
  have h2 := (List.perm_insertionSort _ _).mem_iff.mp h1
  rw [List.mem_filter] at h2
  exact ⟨h2.1, by simpa using h2.2⟩

theorem list_charge_rows_complete (σ : Store) (L : String) (limit : Nat)
    (h : (σ.charges.filter (fun c => c.lease_id == L)).length ≤ limit) :
    list_charge_rows σ L limit
      = List.insertionSort (fun a b => a.charge_date ≤ b.charge_date)
          (σ.charges.filter (fun c => c.lease_id == L)) := by
  unfold list_charge_rows
  apply List.take_of_length_le
  rw [(List.perm_insertionSort _ _).length_eq]
  exact h

theorem list_collection_rows_complete (σ : Store) (L : String) (limit : Nat)
    (h : (σ.collections.filter (fun c => c.lease_id == L)).length ≤ limit) :
    list_collection_rows σ L limit
      = List.insertionSort (fun a b => a.due_date ≤ b.due_date)
          (σ.collections.filter (fun c => c.lease_id == L)) := by
  unfold list_collection_rows
  apply List.take_of_length_le
  rw [(List.perm_insertionSort _ _).length_eq]
  exact h

theorem list_charge_rows_filter (σ : Store) (L : String) (limit : Nat) (d : String)
    (h : (σ.charges.filter (fun c => c.lease_id == L)).length ≤ limit) :
    (list_charge_rows σ L limit).filter (charge_matches d)
      = (σ.charges.filter (fun c => c.lease_id == L)).filter (charge_matches d) := by
  rw [list_charge_rows_complete σ L limit h]
  exact insertionSort_filter_key ChargeRow.charge_date (charge_matches d)
    (fun a b ha hb => by
      simp only [charge_matches, Bool.and_eq_true, beq_iff_eq] at ha hb
      rw [ha.2, hb.2]) _

theorem list_collection_rows_filter (σ : Store) (L : String) (limit : Nat) (d : String)
    (h : (σ.collections.filter (fun c => c.lease_id == L)).length ≤ limit) :
    (list_collection_rows σ L limit).filter (coll_matches d)
      = (σ.collections.filter (fun c => c.lease_id == L)).filter (coll_matches d) := by
  rw [list_collection_rows_complete σ L limit h]
  exact insertionSort_filter_key CollectionRow.due_date (coll_matches d)
    (fun a b ha hb => by
      simp only [coll_matches, beq_iff_eq] at ha hb
      rw [ha, hb]) _

theorem lookup_mem {β : Type} (l : List (String × β)) (k : String) (v : β)
    (h : l.lookup k = some v) : (k, v) ∈ l := by
  induction l with
  | nil => exact absurd h (by simp [List.lookup])
  | cons a l ih =>
    obtain ⟨k', v'⟩ := a
    simp only [List.lookup] at h
    cases hb : k == k'
    · rw [hb] at h
      exact List.mem_cons_of_mem _ (ih h)
    · rw [hb] at h
      obtain rfl := Option.some.inj h
      have hk : k = k' := beq_iff_eq.mp hb
      subst hk
      exact List.mem_cons_self _ _

theorem charge_step_hit (o L : String) (a : ℚ) (cur d : String) (st : EnsureState)
    (c : ChargeRow) (hc : st.charge_idx.lookup d = some c) :
    charge_step o L a cur d st = (c, st) := by
  unfold charge_step
  rw [hc]

theorem charge_step_miss (o L : String) (a : ℚ) (cur d : String) (st : EnsureState)
    (hc : st.charge_idx.lookup d = none) :
    charge_step o L a cur d st =
      (newChargeRow o L a cur d st.σ.next_id,
       { st with
         σ := { st.σ with
           charges := st.σ.charges ++ [newChargeRow o L a cur d st.σ.next_id]
           next_id := st.σ.next_id + 1 }
         charge_idx := st.charge_idx ++ [(d, newChargeRow o L a cur d st.σ.next_id)]
         created_charges := st.created_charges ++ [newChargeRow o L a cur d st.σ.next_id] }) := by
  unfold charge_step
  rw [hc]

theorem collection_step_hit (o L : String) (a : ℚ) (cur : String) (cb : Option String)
    (d : String) (w : ChargeRow) (st : EnsureState)
    (col : CollectionRow) (hc : st.coll_idx.lookup d = some col) :
    collection_step o L a cur cb d w st = (col, st) := by
  unfold collection_step
  rw [hc]

theorem collection_step_miss (o L : String) (a : ℚ) (cur : String) (cb : Option String)
    (d : String) (w : ChargeRow) (st : EnsureState)
    (hc : st.coll_idx.lookup d = none) :
    collection_step o L a cur cb d w st =
      (newCollectionRow o L a cur cb d w.id st.σ.next_id,
       { st with
         σ := { st.σ with
           collections := st.σ.collections ++ [newCollectionRow o L a cur cb d w.id st.σ.next_id]
           next_id := st.σ.next_id + 1 }
         coll_idx := st.coll_idx ++ [(d, newCollectionRow o L a cur cb d w.id st.σ.next_id)]
         created_collections :=
           st.created_collections ++ [newCollectionRow o L a cur cb d w.id st.σ.next_id] }) := by
  unfold collection_step
  rw [hc]

theorem charge_step_spec (o L : String) (a : ℚ) (cur d : String) (st : EnsureState)
    (hinv : IdxInv L st) :
    IdxInv L (charge_step o L a cur d st).2
    ∧ ((charge_step o L a cur d st).1 ∈ (charge_step o L a cur d st).2.σ.charges
        ∧ (charge_step o L a cur d st).1.lease_id = L
        ∧ (charge_step o L a cur d st).1.charge_type = "monthly_rent"
        ∧ (charge_step o L a cur d st).1.charge_date = d)
    ∧ (∃ t, (charge_step o L a cur d st).2.σ.charges = st.σ.charges ++ t
          ∧ (charge_step o L a cur d st).2.created_charges = st.created_charges ++ t
          ∧ t.length ≤ 1
          ∧ ∀ c ∈ t, c.lease_id = L ∧ c.charge_type = "monthly_rent" ∧ c.charge_date = d)
    ∧ (charge_step o L a cur d st).2.σ.collections = st.σ.collections
    ∧ (charge_step o L a cur d st).2.created_collections = st.created_collections
    ∧ (charge_step o L a cur d st).2.coll_idx = st.coll_idx
    ∧ (charge_step o L a cur d st).2.first_collection = st.first_collection := by
  cases hc : st.charge_idx.lookup d with
  | some c =>
    rw [charge_step_hit o L a cur d st c hc]
    obtain ⟨hmem, hlease, htype, hdate⟩ := hinv.1 (d, c) (lookup_mem _ _ _ hc)
    exact ⟨hinv, ⟨hmem, hlease, htype, hdate⟩,
      ⟨[], by simp, by simp, by simp, by simp⟩, rfl, rfl, rfl, rfl⟩
  | none =>
    rw [charge_step_miss o L a cur d st hc]
    refine ⟨⟨?_, ?_⟩, ⟨?_, rfl, rfl, rfl⟩, ?_, rfl, rfl, rfl, rfl⟩
    · intro kv hkv
      rcases List.mem_append.mp hkv with hold | hnew
      · obtain ⟨hm, h2, h3, h4⟩ := hinv.1 kv hold
        exact ⟨List.mem_append_left _ hm, h2, h3, h4⟩
      · rcases List.mem_singleton.mp hnew with rfl
        exact ⟨List.mem_append_right _ (List.mem_singleton_self _), rfl, rfl, rfl⟩
    · intro kv hkv
      exact hinv.2 kv hkv
    · exact List.mem_append_right _ (List.mem_singleton_self _)
    · refine ⟨[newChargeRow o L a cur d st.σ.next_id], rfl, rfl, by simp, ?_⟩
      intro c hc'
      rcases List.mem_singleton.mp hc' with rfl
      exact ⟨rfl, rfl, rfl⟩

theorem collection_step_spec (o L : String) (a : ℚ) (cur : String) (cb : Option String)
    (d : String) (w : ChargeRow) (st : EnsureState) (hinv : IdxInv L st) :
    IdxInv L (collection_step o L a cur cb d w st).2
    ∧ ((collection_step o L a cur cb d w st).1 ∈ (collection_step o L a cur cb d w st).2.σ.collections
        ∧ (collection_step o L a cur cb d w st).1.lease_id = L
        ∧ (collection_step o L a cur cb d w st).1.due_date = d)
    ∧ (∃ t, (collection_step o L a cur cb d w st).2.σ.collections = st.σ.collections ++ t
          ∧ (collection_step o L a cur cb d w st).2.created_collections
              = st.created_collections ++ t
          ∧ t.length ≤ 1
          ∧ ∀ c ∈ t, c.lease_id = L ∧ c.due_date = d)
    ∧ (collection_step o L a cur cb d w st).2.σ.charges = st.σ.charges
    ∧ (collection_step o L a cur cb d w st).2.created_charges = st.created_charges
    ∧ (collection_step o L a cur cb d w st).2.charge_idx = st.charge_idx
    ∧ (collection_step o L a cur cb d w st).2.first_collection = st.first_collection := by
  cases hc : st.coll_idx.lookup d with
  | some col =>
    rw [collection_step_hit o L a cur cb d w st col hc]
    obtain ⟨hmem, hlease, hdate⟩ := hinv.2 (d, col) (lookup_mem _ _ _ hc)
    exact ⟨hinv, ⟨hmem, hlease, hdate⟩,
      ⟨[], by simp, by simp, by simp, by simp⟩, rfl, rfl, rfl, rfl⟩
  | none =>
    rw [collection_step_miss o L a cur cb d w st hc]
    refine ⟨⟨?_, ?_⟩, ⟨?_, rfl, rfl⟩, ?_, rfl, rfl, rfl, rfl⟩
    · intro kv hkv
      exact hinv.1 kv hkv
    · intro kv hkv
      rcases List.mem_append.mp hkv with hold | hnew
      · obtain ⟨hm, h2, h3⟩ := hinv.2 kv hold
        exact ⟨List.mem_append_left _ hm, h2, h3⟩
      · rcases List.mem_singleton.mp hnew with rfl
        exact ⟨List.mem_append_right _ (List.mem_singleton_self _), rfl, rfl⟩
    · exact List.mem_append_right _ (List.mem_singleton_self _)
    · refine ⟨[newCollectionRow o L a cur cb d w.id st.σ.next_id], rfl, rfl, by simp, ?_⟩
      intro c hc'
      rcases List.mem_singleton.mp hc' with rfl
      exact ⟨rfl, rfl⟩

theorem ensure_loop_cons (o L : String) (a : ℚ) (cur : String) (cb : Option String)
    (d : String) (rest : List String) (pos : Nat) (st : EnsureState) :
    ensure_loop o L a cur cb (d :: rest) pos st
      = ensure_loop o L a cur cb rest (pos + 1)
          (if pos = 0
            then { (ensure_step o L a cur cb d st).2 with
                   first_collection := some (ensure_step o L a cur cb d st).1 }
            else (ensure_step o L a cur cb d st).2) := rfl

theorem ensure_step_spec (o L : String) (a : ℚ) (cur : String) (cb : Option String)
    (d : String) (st : EnsureState) (hinv : IdxInv L st) :
    IdxInv L (ensure_step o L a cur cb d st).2
    ∧ ChargeCovered L d (ensure_step o L a cur cb d st).2.σ
    ∧ ((ensure_step o L a cur cb d st).1 ∈ (ensure_step o L a cur cb d st).2.σ.collections
        ∧ (ensure_step o L a cur cb d st).1.lease_id = L
        ∧ (ensure_step o L a cur cb d st).1.due_date = d)
    ∧ (∃ t, (ensure_step o L a cur cb d st).2.σ.charges = st.σ.charges ++ t
          ∧ (ensure_step o L a cur cb d st).2.created_charges = st.created_charges ++ t
          ∧ t.length ≤ 1
          ∧ ∀ c ∈ t, c.lease_id = L ∧ c.charge_type = "monthly_rent" ∧ c.charge_date = d)
    ∧ (∃ t, (ensure_step o L a cur cb d st).2.σ.collections = st.σ.collections ++ t
          ∧ (ensure_step o L a cur cb d st).2.created_collections
              = st.created_collections ++ t
          ∧ t.length ≤ 1
          ∧ ∀ c ∈ t, c.lease_id = L ∧ c.due_date = d)
    ∧ (ensure_step o L a cur cb d st).2.first_collection = st.first_collection := by
  obtain ⟨hinv1, ⟨hwmem, hwlease, hwtype, hwdate⟩, ⟨tc, htc1, htc2, htc3, htc4⟩,
    hcolσ, hccol, hcidx, hf1⟩ := charge_step_spec o L a cur d st hinv
  obtain ⟨hinv2, ⟨hcm, hcl, hcd⟩, ⟨tl, htl1, htl2, htl3, htl4⟩,
    hchσ, hcch, hchidx, hf2⟩ :=
      collection_step_spec o L a cur cb d (charge_step o L a cur d st).1
        (charge_step o L a cur d st).2 hinv1
  simp only [ensure_step]
  refine ⟨hinv2, ⟨(charge_step o L a cur d st).1, ?_, hwlease, hwtype, hwdate⟩,
    ⟨hcm, hcl, hcd⟩, ⟨tc, ?_, ?_, htc3, htc4⟩, ⟨tl, ?_, ?_, htl3, htl4⟩, ?_⟩
  · rw [hchσ]
    exact hwmem
  · rw [hchσ, htc1]
  · rw [hcch, htc2]
  · rw [htl1, hcolσ]
  · rw [htl2, hccol]
  · rw [hf2, hf1]

theorem ensure_loop_spec (o L : String) (a : ℚ) (cur : String) (cb : Option String)
    (dues : List String) (pos : Nat) (st : EnsureState) (hinv : IdxInv L st) :
    IdxInv L (ensure_loop o L a cur cb dues pos st)
    ∧ (∃ t, (ensure_loop o L a cur cb dues pos st).σ.charges = st.σ.charges ++ t
          ∧ (ensure_loop o L a cur cb dues pos st).created_charges = st.created_charges ++ t
          ∧ t.length ≤ dues.length
          ∧ ∀ c ∈ t, c.lease_id = L ∧ c.charge_type = "monthly_rent" ∧ c.charge_date ∈ dues)
    ∧ (∃ t, (ensure_loop o L a cur cb dues pos st).σ.collections = st.σ.collections ++ t
          ∧ (ensure_loop o L a cur cb dues pos st).created_collections
              = st.created_collections ++ t
          ∧ t.length ≤ dues.length
          ∧ ∀ c ∈ t, c.lease_id = L ∧ c.due_date ∈ dues)
    ∧ (∀ d ∈ dues, ChargeCovered L d (ensure_loop o L a cur cb dues pos st).σ
          ∧ CollCovered L d (ensure_loop o L a cur cb dues pos st).σ) := by
  induction dues generalizing pos st hinv with
  | nil =>
    exact ⟨hinv, ⟨[], by rw [ensure_loop]; simp, by rw [ensure_loop]; simp, by simp, by simp⟩,
      ⟨[], by rw [ensure_loop]; simp, by rw [ensure_loop]; simp, by simp, by simp⟩,
      fun d hd => absurd hd (List.not_mem_nil d)⟩
  | cons d rest ih =>
    rw [ensure_loop_cons o L a cur cb d rest pos st]
    obtain ⟨hinv', hcov, ⟨hkm, hkl, hkd⟩, ⟨tc, htc1, htc2, htc3, htc4⟩,
      ⟨tl, htl1, htl2, htl3, htl4⟩, hf⟩ := ensure_step_spec o L a cur cb d st hinv
    have hσ2 : (if pos = 0
        then { (ensure_step o L a cur cb d st).2 with
               first_collection := some (ensure_step o L a cur cb d st).1 }
        else (ensure_step o L a cur cb d st).2).σ = (ensure_step o L a cur cb d st).2.σ := by
      split <;> rfl
    have hcc2 : (if pos = 0
        then { (ensure_step o L a cur cb d st).2 with
               first_collection := some (ensure_step o L a cur cb d st).1 }
        else (ensure_step o L a cur cb d st).2).created_charges
          = (ensure_step o L a cur cb d st).2.created_charges := by
      split <;> rfl
    have hkk2 : (if pos = 0
        then { (ensure_step o L a cur cb d st).2 with
               first_collection := some (ensure_step o L a cur cb d st).1 }
        else (ensure_step o L a cur cb d st).2).created_collections
          = (ensure_step o L a cur cb d st).2.created_collections := by
      split <;> rfl
    have hstinv : IdxInv L (if pos = 0
        then { (ensure_step o L a cur cb d st).2 with
               first_collection := some (ensure_step o L a cur cb d st).1 }
        else (ensure_step o L a cur cb d st).2) := by
      split
      · exact hinv'
      · exact hinv'
    obtain ⟨ihinv, ⟨tc', h1', h2', h3', h4'⟩, ⟨tl', g1', g2', g3', g4'⟩, ihcov⟩ :=
      ih (pos + 1) _ hstinv
    rw [hσ2] at h1' g1'
    rw [hcc2] at h2'
    rw [hkk2] at g2'
    rw [htc1] at h1'
    rw [htc2] at h2'
    rw [htl1] at g1'
    rw [htl2] at g2'
    refine ⟨ihinv,
      ⟨tc ++ tc', by rw [h1', List.append_assoc], by rw [h2', List.append_assoc], ?_, ?_⟩,
      ⟨tl ++ tl', by rw [g1', List.append_assoc], by rw [g2', List.append_assoc], ?_, ?_⟩, ?_⟩
    · rw [List.length_append, List.length_cons]
      omega
    · intro c hc
      rcases List.mem_append.mp hc with hc | hc
      · obtain ⟨p1, p2, p3⟩ := htc4 c hc
        exact ⟨p1, p2, p3 ▸ List.mem_cons_self _ _⟩
      · obtain ⟨p1, p2, p3⟩ := h4' c hc
        exact ⟨p1, p2, List.mem_cons_of_mem _ p3⟩
    · rw [List.length_append, List.length_cons]
      omega
    · intro c hc
      rcases List.mem_append.mp hc with hc | hc
      · obtain ⟨p1, p2⟩ := htl4 c hc
        exact ⟨p1, p2 ▸ List.mem_cons_self _ _⟩
      · obtain ⟨p1, p2⟩ := g4' c hc
        exact ⟨p1, List.mem_cons_of_mem _ p2⟩
    · intro d' hd'
      rcases List.mem_cons.mp hd' with rfl | hd'
      · constructor
        · obtain ⟨c, hc1, hc2, hc3, hc4⟩ := hcov
          refine ⟨c, ?_, hc2, hc3, hc4⟩
          rw [htc1] at hc1
          rw [h1']
          exact List.mem_append_left _ hc1
        · refine ⟨(ensure_step o L a cur cb d' st).1, ?_, hkl, hkd⟩
          rw [htl1] at hkm
          rw [g1']
          exact List.mem_append_left _ hkm
      · exact ihcov d' hd'

theorem charge_step_coll_idx (o L : String) (a : ℚ) (cur d : String) (st : EnsureState) :
    (charge_step o L a cur d st).2.coll_idx = st.coll_idx := by
  unfold charge_step
  cases st.charge_idx.lookup d <;> rfl

theorem charge_step_collections (o L : String) (a : ℚ) (cur d : String) (st : EnsureState) :
    (charge_step o L a cur d st).2.σ.collections = st.σ.collections := by
  unfold charge_step
  cases st.charge_idx.lookup d <;> rfl

theorem charge_step_first (o L : String) (a : ℚ) (cur d : String) (st : EnsureState) :
    (charge_step o L a cur d st).2.first_collection = st.first_collection := by
  unfold charge_step
  cases st.charge_idx.lookup d <;> rfl

theorem collection_step_first (o L : String) (a : ℚ) (cur : String) (cb : Option String)
    (d : String) (w : ChargeRow) (st : EnsureState) :
    (collection_step o L a cur cb d w st).2.first_collection = st.first_collection := by
  unfold collection_step
  cases st.coll_idx.lookup d <;> rfl

theorem ensure_step_first (o L : String) (a : ℚ) (cur : String) (cb : Option String)
    (d : String) (st : EnsureState) :
    (ensure_step o L a cur cb d st).2.first_collection = st.first_collection := by
  simp only [ensure_step]
  rw [collection_step_first, charge_step_first]

theorem ensure_step_hits (o L : String) (a : ℚ) (cur : String) (cb : Option String)
    (d : String) (st : EnsureState) (c : ChargeRow) (col : CollectionRow)
    (hc : st.charge_idx.lookup d = some c) (hcol : st.coll_idx.lookup d = some col) :
    ensure_step o L a cur cb d st = (col, st) := by
  simp only [ensure_step]
  rw [charge_step_hit o L a cur d st c hc]
  exact collection_step_hit o L a cur cb d c st col hcol

theorem ensure_step_fst_hit (o L : String) (a : ℚ) (cur : String) (cb : Option String)
    (d : String) (st : EnsureState) (col : CollectionRow)
    (hcol : st.coll_idx.lookup d = some col) :
    (ensure_step o L a cur cb d st).1 = col := by
  simp only [ensure_step]
  rw [collection_step_hit o L a cur cb d _ _ col
    (by rw [charge_step_coll_idx]; exact hcol)]

theorem ensure_loop_hits (o L : String) (a : ℚ) (cur : String) (cb : Option String)
    (dues : List String) (pos : Nat) (st : EnsureState)
    (hpos : pos ≠ 0)
    (hh : ∀ d ∈ dues, (st.charge_idx.lookup d).isSome ∧ (st.coll_idx.lookup d).isSome) :
    ensure_loop o L a cur cb dues pos st = st := by
  induction dues generalizing pos hpos with
  | nil => rfl
  | cons d rest ih =>
    obtain ⟨hcs, hks⟩ := hh d (List.mem_cons_self _ _)
    obtain ⟨c, hc⟩ := Option.isSome_iff_exists.mp hcs
    obtain ⟨col, hcol⟩ := Option.isSome_iff_exists.mp hks
    rw [ensure_loop_cons, ensure_step_hits o L a cur cb d st c col hc hcol, if_neg hpos]
    exact ih (pos + 1) (Nat.succ_ne_zero pos) (fun d' hd' => hh d' (List.mem_cons_of_mem _ hd'))

theorem ensure_loop_zero_hits (o L : String) (a : ℚ) (cur : String) (cb : Option String)
    (d0 : String) (rest : List String) (st : EnsureState)
    (c : ChargeRow) (col : CollectionRow)
    (hc : st.charge_idx.lookup d0 = some c) (hcol : st.coll_idx.lookup d0 = some col)
    (hh : ∀ d ∈ rest, (st.charge_idx.lookup d).isSome ∧ (st.coll_idx.lookup d).isSome) :
    ensure_loop o L a cur cb (d0 :: rest) 0 st
      = { st with first_collection := some col } := by
  rw [ensure_loop_cons, ensure_step_hits o L a cur cb d0 st c col hc hcol, if_pos rfl]
  exact ensure_loop_hits o L a cur cb rest 1
    { st with first_collection := some col } one_ne_zero (fun d hd => hh d hd)

theorem ensure_loop_first_frozen (o L : String) (a : ℚ) (cur : String) (cb : Option String)
    (dues : List String) (pos : Nat) (st : EnsureState) (hpos : pos ≠ 0) :
    (ensure_loop o L a cur cb dues pos st).first_collection = st.first_collection := by
  induction dues generalizing pos st hpos with
  | nil => rfl
  | cons d rest ih =>
    rw [ensure_loop_cons, if_neg hpos, ih (pos + 1) _ (Nat.succ_ne_zero pos)]
    exact ensure_step_first o L a cur cb d st

theorem ensure_loop_first_zero (o L : String) (a : ℚ) (cur : String) (cb : Option String)
    (d0 : String) (rest : List String) (st : EnsureState) :
    (ensure_loop o L a cur cb (d0 :: rest) 0 st).first_collection
      = some (ensure_step o L a cur cb d0 st).1 := by
  rw [ensure_loop_cons, if_pos rfl,
    ensure_loop_first_frozen o L a cur cb rest 1 _ one_ne_zero]

theorem ensure_step_coll_miss (o L : String) (a : ℚ) (cur : String) (cb : Option String)
    (d : String) (st : EnsureState) (hcol : st.coll_idx.lookup d = none) :
    (ensure_step o L a cur cb d st).1.lease_id = L
    ∧ (ensure_step o L a cur cb d st).1.due_date = d
    ∧ (ensure_step o L a cur cb d st).2.σ.collections
        = st.σ.collections ++ [(ensure_step o L a cur cb d st).1]
    ∧ ((ensure_step o L a cur cb d st).2.coll_idx.lookup d).isSome := by
  simp only [ensure_step]
  rw [collection_step_miss o L a cur cb d _ _
    (by rw [charge_step_coll_idx]; exact hcol)]
  refine ⟨rfl, rfl, by rw [charge_step_collections], ?_⟩
  rw [lookup_append_or, charge_step_coll_idx, hcol, lookup_singleton, if_pos rfl]
  rfl

theorem ensure_step_coll_analysis (o L : String) (a : ℚ) (cur : String) (cb : Option String)
    (d' : String) (st : EnsureState) (d : String)
    (hd : (st.coll_idx.lookup d).isSome) :
    ∃ t, (ensure_step o L a cur cb d' st).2.σ.collections = st.σ.collections ++ t
       ∧ (∀ c ∈ t, c.due_date = d')
       ∧ (d' = d → t = [])
       ∧ ((ensure_step o L a cur cb d' st).2.coll_idx.lookup d).isSome := by
  simp only [ensure_step]
  cases hcol : (charge_step o L a cur d' st).2.coll_idx.lookup d' with
  | some col =>
    rw [collection_step_hit o L a cur cb d' _ _ col hcol]
    refine ⟨[], by rw [charge_step_collections]; simp, by simp, fun _ => rfl, ?_⟩
    rw [charge_step_coll_idx]
    exact hd
  | none =>
    rw [collection_step_miss o L a cur cb d' _ _ hcol]
    refine ⟨[newCollectionRow o L a cur cb d' (charge_step o L a cur d' st).1.id
        (charge_step o L a cur d' st).2.σ.next_id],
      by rw [charge_step_collections], ?_, ?_, ?_⟩
    · intro c hc
      rcases List.mem_singleton.mp hc with rfl
      rfl
    · intro heq
      rw [charge_step_coll_idx, heq] at hcol
      rw [hcol] at hd
      exact absurd hd (by simp)
    · dsimp only
      rw [lookup_append_or, charge_step_coll_idx]
      obtain ⟨v, hv⟩ := Option.isSome_iff_exists.mp hd
      rw [hv]
      rfl

theorem ensure_loop_nocreate (o L : String) (a : ℚ) (cur : String) (cb : Option String)
    (dues : List String) (pos : Nat) (st : EnsureState) (d : String)
    (hd : (st.coll_idx.lookup d).isSome) :
    ∃ t, (ensure_loop o L a cur cb dues pos st).σ.collections = st.σ.collections ++ t
       ∧ ∀ c ∈ t, c.due_date ≠ d := by
  induction dues generalizing pos st hd with
  | nil => exact ⟨[], by rw [ensure_loop]; simp, by simp⟩
  | cons d' rest ih =>
    rw [ensure_loop_cons]
    obtain ⟨t0, ht0, ht0d, ht0nil, hsome'⟩ := ensure_step_coll_analysis o L a cur cb d' st d hd
    have hite_idx : (if pos = 0
        then { (ensure_step o L a cur cb d' st).2 with
               first_collection := some (ensure_step o L a cur cb d' st).1 }
        else (ensure_step o L a cur cb d' st).2).coll_idx
          = (ensure_step o L a cur cb d' st).2.coll_idx := by
      split <;> rfl
    have hite_col : (if pos = 0
        then { (ensure_step o L a cur cb d' st).2 with
               first_collection := some (ensure_step o L a cur cb d' st).1 }
        else (ensure_step o L a cur cb d' st).2).σ.collections
          = (ensure_step o L a cur cb d' st).2.σ.collections := by
      split <;> rfl
    obtain ⟨t, ht, htd⟩ := ih (pos + 1) _ (by rw [hite_idx]; exact hsome')
    refine ⟨t0 ++ t, ?_, ?_⟩
    · rw [ht, hite_col, ht0, List.append_assoc]
    · intro c hcm
      rcases List.mem_append.mp hcm with hcm | hcm
      · by_cases hdd : d' = d
        · rw [ht0nil hdd] at hcm
          exact absurd hcm (List.not_mem_nil c)
        · rw [ht0d c hcm]
          exact hdd
      · exact htd c hcm

theorem head_isSome_of_mem {α : Type} (l : List α) (x : α) (hx : x ∈ l) :
    l.head?.isSome = true := by
  cases l with
  | nil => exact absurd hx (List.not_mem_nil x)
  | cons a l => rfl

theorem nil_of_head_eq_none {α : Type} (l : List α) (h : l.head? = none) : l = [] := by
  cases l with
  | nil => rfl
  | cons a l => exact absurd h (by simp)

theorem ensure_charge_index_lookup (σ : Store) (L : String) (limit : Nat)
    (keys : List String) (d : String) (hd : d ∈ keys)
    (hcomp : (σ.charges.filter (fun c => c.lease_id == L)).length ≤ limit) :
    (build_charge_index keys (list_charge_rows σ L limit) []).lookup d
      = ((σ.charges.filter (fun c => c.lease_id == L)).filter (charge_matches d)).head? := by
  rw [build_charge_index_lookup, if_pos hd, list_charge_rows_filter σ L limit d hcomp]
  rfl

theorem ensure_collection_index_lookup (σ : Store) (L : String) (limit : Nat)
    (keys : List String) (d : String) (hd : d ∈ keys)
    (hcomp : (σ.collections.filter (fun c => c.lease_id == L)).length ≤ limit) :
    (build_collection_index keys (list_collection_rows σ L limit) []).lookup d
      = ((σ.collections.filter (fun c => c.lease_id == L)).filter (coll_matches d)).head? := by
  rw [build_collection_index_lookup, if_pos hd, list_collection_rows_filter σ L limit d hcomp]
  rfl

theorem ensure_inv0 (L : String) (keys : List String) (σ : Store) (limit : Nat) :
    IdxInv L ⟨σ, build_charge_index keys (list_charge_rows σ L limit) [],
      build_collection_index keys (list_collection_rows σ L limit) [], [], [], none⟩ := by
  refine ⟨?_, ?_⟩
  · intro kv hkv
    rcases build_charge_index_mem keys _ [] kv hkv with h | ⟨hm, ht, hd⟩
    · exact absurd h (List.not_mem_nil kv)
    · obtain ⟨hm', hl⟩ := list_charge_rows_all σ L limit kv.2 hm
      exact ⟨hm', hl, ht, hd⟩
  · intro kv hkv
    rcases build_collection_index_mem keys _ [] kv hkv with h | ⟨hm, hd⟩
    · exact absurd h (List.not_mem_nil kv)
    · obtain ⟨hm', hl⟩ := list_collection_rows_all σ L limit kv.2 hm
      exact ⟨hm', hl, hd⟩

theorem ensure_loop_zero_miss_collections (o L : String) (a : ℚ) (cur : String)
    (cb : Option String) (k0 : String) (krest : List String) (st : EnsureState)
    (hmiss : st.coll_idx.lookup k0 = none) :
    ∃ t, (ensure_loop o L a cur cb (k0 :: krest) 0 st).σ.collections
        = st.σ.collections ++ [(ensure_step o L a cur cb k0 st).1] ++ t
      ∧ ∀ c ∈ t, c.due_date ≠ k0 := by
  rw [ensure_loop_cons, if_pos rfl]
  obtain ⟨hl1, hl2, hl3, hl4⟩ := ensure_step_coll_miss o L a cur cb k0 st hmiss
  obtain ⟨t, ht, htd⟩ := ensure_loop_nocreate o L a cur cb krest 1
    { (ensure_step o L a cur cb k0 st).2 with
      first_collection := some (ensure_step o L a cur cb k0 st).1 } k0 hl4
  refine ⟨t, ?_, htd⟩
  rw [ht]
  rw [show ({ (ensure_step o L a cur cb k0 st).2 with
      first_collection := some (ensure_step o L a cur cb k0 st).1 } :
        EnsureState).σ.collections
    = (ensure_step o L a cur cb k0 st).2.σ.collections from rfl, hl3]

theorem ensure_with_dates_idem (o L : String) (a : ℚ) (cur : String) (cb : Option String)
    (dues : List Date) (σ : Store)
    (hne : dues ≠ []) (hlen : dues.length ≤ 120)
    (hc : (σ.charges.filter (fun c => c.lease_id == L)).length ≤ 180)
    (hk : (σ.collections.filter (fun c => c.lease_id == L)).length ≤ 180) :
    ensure_with_dates o L a cur cb dues (ensure_with_dates o L a cur cb dues σ).2
      = ({ (ensure_with_dates o L a cur cb dues σ).1 with
           charges := [], collections := [] },
         (ensure_with_dates o L a cur cb dues σ).2) := by
  have hkeysne : dues.map Date.toIso ≠ [] := by
    intro h
    exact hne (List.map_eq_nil_iff.mp h)
  have hkeyslen : (dues.map Date.toIso).length ≤ 120 := by
    rw [List.length_map]
    exact hlen
  have hlim : 300 ≤ max 300 (dues.length * 4) := le_max_left _ _
  simp only [ensure_with_dates]
  generalize hlimit : max 300 (dues.length * 4) = limit
  rw [hlimit] at hlim
  generalize hkeys : dues.map Date.toIso = keys
  rw [hkeys] at hkeysne hkeyslen
  obtain ⟨k0, krest, rfl⟩ := List.exists_cons_of_ne_nil hkeysne
  set st0 : EnsureState := ⟨σ,
    build_charge_index (k0 :: krest) (list_charge_rows σ L limit) [],
    build_collection_index (k0 :: krest) (list_collection_rows σ L limit) [],
    [], [], none⟩ with hst0
  have hinv0 : IdxInv L st0 := ensure_inv0 L (k0 :: krest) σ limit
  obtain ⟨hinvF, ⟨tc, htc1, htc2, htc3, htc4⟩, ⟨tl, htl1, htl2, htl3, htl4⟩, hcov⟩ :=
    ensure_loop_spec o L a cur cb (k0 :: krest) 0 st0 hinv0
  have htc1' : (ensure_loop o L a cur cb (k0 :: krest) 0 st0).σ.charges
      = σ.charges ++ tc := htc1
  have htl1' : (ensure_loop o L a cur cb (k0 :: krest) 0 st0).σ.collections
      = σ.collections ++ tl := htl1
  have hcount2c : ((ensure_loop o L a cur cb (k0 :: krest) 0 st0).σ.charges.filter
      (fun c => c.lease_id == L)).length ≤ limit := by
    rw [htc1', List.filter_append, List.length_append]
    have h1 : (tc.filter (fun c => c.lease_id == L)).length ≤ tc.length :=
      List.length_filter_le _ _
    have h2 : tc.length ≤ (k0 :: krest).length := htc3
    omega
  have hcount2k : ((ensure_loop o L a cur cb (k0 :: krest) 0 st0).σ.collections.filter
      (fun c => c.lease_id == L)).length ≤ limit := by
    rw [htl1', List.filter_append, List.length_append]
    have h1 : (tl.filter (fun c => c.lease_id == L)).length ≤ tl.length :=
      List.length_filter_le _ _
    have h2 : tl.length ≤ (k0 :: krest).length := htl3
    omega
  have hhits : ∀ d ∈ (k0 :: krest),
      ((build_charge_index (k0 :: krest)
          (list_charge_rows (ensure_loop o L a cur cb (k0 :: krest) 0 st0).σ L limit)
          []).lookup d).isSome = true
      ∧ ((build_collection_index (k0 :: krest)
          (list_collection_rows (ensure_loop o L a cur cb (k0 :: krest) 0 st0).σ L limit)
          []).lookup d).isSome = true := by
    intro d hd
    obtain ⟨⟨cw, hw1, hw2, hw3, hw4⟩, ⟨kw, hk1, hk2, hk3⟩⟩ := hcov d hd
    constructor
    · rw [ensure_charge_index_lookup _ L limit _ d hd hcount2c]
      refine head_isSome_of_mem _ cw ?_
      rw [List.mem_filter]
      exact ⟨List.mem_filter.mpr ⟨hw1, by simp [hw2]⟩, by simp [charge_matches, hw3, hw4]⟩
    · rw [ensure_collection_index_lookup _ L limit _ d hd hcount2k]
      refine head_isSome_of_mem _ kw ?_
      rw [List.mem_filter]
      exact ⟨List.mem_filter.mpr ⟨hk1, by simp [hk2]⟩, by simp [coll_matches, hk3]⟩
  obtain ⟨c₂, hc₂⟩ := Option.isSome_iff_exists.mp (hhits k0 (List.mem_cons_self _ _)).1
  obtain ⟨col₂, hcol₂⟩ := Option.isSome_iff_exists.mp (hhits k0 (List.mem_cons_self _ _)).2
  have hidx1k0 : st0.coll_idx.lookup k0
      = ((σ.collections.filter (fun c => c.lease_id == L)).filter (coll_matches k0)).head? :=
    ensure_collection_index_lookup σ L limit (k0 :: krest) k0 (List.mem_cons_self _ _)
      (by omega)
  have hidx2k0 : (build_collection_index (k0 :: krest)
      (list_collection_rows (ensure_loop o L a cur cb (k0 :: krest) 0 st0).σ L limit)
      []).lookup k0
      = (((ensure_loop o L a cur cb (k0 :: krest) 0 st0).σ.collections.filter
          (fun c => c.lease_id == L)).filter (coll_matches k0)).head? :=
    ensure_collection_index_lookup _ L limit _ k0 (List.mem_cons_self _ _) hcount2k
  have hfirst : (ensure_loop o L a cur cb (k0 :: krest) 0 st0).first_collection
      = some col₂ := by
    cases hcol1 : st0.coll_idx.lookup k0 with
    | some col =>
      obtain ⟨t, ht, htd⟩ := ensure_loop_nocreate o L a cur cb (k0 :: krest) 0 st0 k0
        (by rw [hcol1]; rfl)
      have ht' : (ensure_loop o L a cur cb (k0 :: krest) 0 st0).σ.collections
          = σ.collections ++ t := ht
      have hclass : (((ensure_loop o L a cur cb (k0 :: krest) 0 st0).σ.collections.filter
          (fun c => c.lease_id == L)).filter (coll_matches k0))
          = ((σ.collections.filter (fun c => c.lease_id == L)).filter (coll_matches k0)) := by
        rw [ht', List.filter_append, List.filter_append]
        have hnil : ((t.filter (fun c => c.lease_id == L)).filter (coll_matches k0)) = [] := by
          rw [List.filter_eq_nil_iff]
          intro x hx
          have hxd := htd x (List.mem_of_mem_filter hx)
          simp only [coll_matches, beq_iff_eq]
          exact hxd
        rw [hnil, List.append_nil]
      have heq2 : some col₂ = some col := by
        rw [← hcol₂, hidx2k0, hclass, ← hidx1k0, hcol1]
      obtain rfl := Option.some.inj heq2
      rw [ensure_loop_first_zero o L a cur cb k0 krest st0,
        ensure_step_fst_hit o L a cur cb k0 st0 _ hcol1]
    | none =>
      obtain ⟨hl1, hl2, hl3, hl4⟩ := ensure_step_coll_miss o L a cur cb k0 st0 hcol1
      obtain ⟨t, ht, htd⟩ := ensure_loop_zero_miss_collections o L a cur cb k0 krest st0 hcol1
      have ht' : (ensure_loop o L a cur cb (k0 :: krest) 0 st0).σ.collections
          = σ.collections ++ [(ensure_step o L a cur cb k0 st0).1] ++ t := ht
      have hcls0 : ((σ.collections.filter (fun c => c.lease_id == L)).filter
          (coll_matches k0)) = [] := by
        apply nil_of_head_eq_none
        rw [← hidx1k0, hcol1]
      have hx1 : (List.filter (fun c => c.lease_id == L)
          [(ensure_step o L a cur cb k0 st0).1]) = [(ensure_step o L a cur cb k0 st0).1] := by
        simp [hl1]
      have hx2 : List.filter (coll_matches k0) [(ensure_step o L a cur cb k0 st0).1]
          = [(ensure_step o L a cur cb k0 st0).1] := by
        simp [coll_matches, hl2]
      have hnil : ((t.filter (fun c => c.lease_id == L)).filter (coll_matches k0)) = [] := by
        rw [List.filter_eq_nil_iff]
        intro x hx
        have hxd := htd x (List.mem_of_mem_filter hx)
        simp only [coll_matches, beq_iff_eq]
        exact hxd
      have hclass : (((ensure_loop o L a cur cb (k0 :: krest) 0 st0).σ.collections.filter
          (fun c => c.lease_id == L)).filter (coll_matches k0))
          = [(ensure_step o L a cur cb k0 st0).1] := by
        rw [ht']
        simp only [List.filter_append]
        rw [hcls0, hx1, hx2, hnil]
        simp
      have hcol₂' : col₂ = (ensure_step o L a cur cb k0 st0).1 := by
        have heq2 : some col₂ = some (ensure_step o L a cur cb k0 st0).1 := by
          rw [← hcol₂, hidx2k0, hclass]
          rfl
        exact Option.some.inj heq2
      rw [ensure_loop_first_zero o L a cur cb k0 krest st0, hcol₂']
  have hrun2 : ensure_loop o L a cur cb (k0 :: krest) 0
      ⟨(ensure_loop o L a cur cb (k0 :: krest) 0 st0).σ,
       build_charge_index (k0 :: krest)
         (list_charge_rows (ensure_loop o L a cur cb (k0 :: krest) 0 st0).σ L limit) [],
       build_collection_index (k0 :: krest)
         (list_collection_rows (ensure_loop o L a cur cb (k0 :: krest) 0 st0).σ L limit) [],
       [], [], none⟩
      = ⟨(ensure_loop o L a cur cb (k0 :: krest) 0 st0).σ,
         build_charge_index (k0 :: krest)
           (list_charge_rows (ensure_loop o L a cur cb (k0 :: krest) 0 st0).σ L limit) [],
         build_collection_index (k0 :: krest)
           (list_collection_rows (ensure_loop o L a cur cb (k0 :: krest) 0 st0).σ L limit) [],
         [], [], some col₂⟩ :=
    ensure_loop_zero_hits o L a cur cb k0 krest _ c₂ col₂ hc₂ hcol₂
      (fun d hd => ⟨(hhits d (List.mem_cons_of_mem _ hd)).1,
        (hhits d (List.mem_cons_of_mem _ hd)).2⟩)
  rw [hrun2, hfirst]

theorem ensure_unfold_error (o L starts_on : String) (fcd eo : Option String)
    (months : Option Int) (a : ℚ) (cur : String) (cb : Option String) (σ : Store)
    (e : ApiError)
    (hb : build_monthly_schedule_dates starts_on fcd eo months = Except.error e) :
    ensure_monthly_lease_schedule o L starts_on fcd eo months a cur cb σ
      = Except.error e := by
  unfold ensure_monthly_lease_schedule
  rw [hb]
  rfl

theorem ensure_unfold_ok (o L starts_on : String) (fcd eo : Option String)
    (months : Option Int) (a : ℚ) (cur : String) (cb : Option String) (σ : Store)
    (dues : List Date)
    (hb : build_monthly_schedule_dates starts_on fcd eo months = Except.ok dues) :
    ensure_monthly_lease_schedule o L starts_on fcd eo months a cur cb σ
      = Except.ok (ensure_with_dates o L a cur cb dues σ) := by
  unfold ensure_monthly_lease_schedule
  rw [hb]
  rfl

/-- C1: Idempotence of schedule materialization: after a prior successful run
of `ensure_monthly_lease_schedule` turned the store `σ` into `σ1`, invoking it
a second time with the same arguments succeeds, creates zero additional
`lease_charges` rows and zero additional `collection_records` rows (it returns
the very same store `σ1`, with empty `charges`/`collections` creation lists),
and returns the same `first_collection` as the first run (the returned
dictionary equals the first run's with the creation lists emptied).  Stated
for leases whose pre-existing per-lease row counts fit the listing window
(at most 180 rows per table before the first run). -/
theorem ensure_monthly_lease_schedule_idempotent
    (o L starts_on : String) (fcd eo : Option String) (months : Option Int)
    (a : ℚ) (cur : String) (cb : Option String)
    (σ σ1 : Store) (r1 : EnsureResult)
    (hc : (σ.charges.filter (fun c => c.lease_id == L)).length ≤ 180)
    (hk : (σ.collections.filter (fun c => c.lease_id == L)).length ≤ 180)
    (h1 : ensure_monthly_lease_schedule o L starts_on fcd eo months a cur cb σ
            = Except.ok (r1, σ1)) :
    ensure_monthly_lease_schedule o L starts_on fcd eo months a cur cb σ1
      = Except.ok ({ r1 with charges := [], collections := [] }, σ1) := by
  cases hb : build_monthly_schedule_dates starts_on fcd eo months with
  | error e =>
    rw [ensure_unfold_error o L starts_on fcd eo months a cur cb σ e hb] at h1
    exact absurd h1 (by simp)
  | ok dues =>
    rw [ensure_unfold_ok o L starts_on fcd eo months a cur cb σ dues hb] at h1
    have hpair := Except.ok.inj h1
    obtain ⟨hlen, hnil⟩ := build_dates_length_le hb
    obtain ⟨rfl, rfl⟩ : r1 = (ensure_with_dates o L a cur cb dues σ).1
        ∧ σ1 = (ensure_with_dates o L a cur cb dues σ).2 :=
      ⟨by rw [hpair], by rw [hpair]⟩
    rw [ensure_unfold_ok o L starts_on fcd eo months a cur cb _ dues hb,
      ensure_with_dates_idem o L a cur cb dues σ hnil hlen hc hk]

/-- Witness for the idempotence theorem at the repository's test arguments:
an empty store, a three-month schedule starting 2026-05-01. -/
theorem ensure_monthly_lease_schedule_idempotent_witness :
    (((⟨[], [], 0⟩ : Store)).charges.filter (fun c => c.lease_id == "lease-1")).length ≤ 180
    ∧ (((⟨[], [], 0⟩ : Store)).collections.filter
        (fun c => c.lease_id == "lease-1")).length ≤ 180
    ∧ ensure_monthly_lease_schedule "org-1" "lease-1" "2026-05-01" none none (some 3)
        1000 "PYG" (some "user-1")
        (ensure_with_dates "org-1" "lease-1" 1000 "PYG" (some "user-1")
          [⟨2026, 5, 1⟩, ⟨2026, 6, 1⟩, ⟨2026, 7, 1⟩] ⟨[], [], 0⟩).2
      = Except.ok
          ({ (ensure_with_dates "org-1" "lease-1" 1000 "PYG" (some "user-1")
               [⟨2026, 5, 1⟩, ⟨2026, 6, 1⟩, ⟨2026, 7, 1⟩] ⟨[], [], 0⟩).1 with
             charges := [], collections := [] },
           (ensure_with_dates "org-1" "lease-1" 1000 "PYG" (some "user-1")
             [⟨2026, 5, 1⟩, ⟨2026, 6, 1⟩, ⟨2026, 7, 1⟩] ⟨[], [], 0⟩).2) :=
  ⟨by decide, by decide,
   ensure_monthly_lease_schedule_idempotent "org-1" "lease-1" "2026-05-01" none none
     (some 3) 1000 "PYG" (some "user-1") ⟨[], [], 0⟩
     (ensure_with_dates "org-1" "lease-1" 1000 "PYG" (some "user-1")
       [⟨2026, 5, 1⟩, ⟨2026, 6, 1⟩, ⟨2026, 7, 1⟩] ⟨[], [], 0⟩).2
     (ensure_with_dates "org-1" "lease-1" 1000 "PYG" (some "user-1")
       [⟨2026, 5, 1⟩, ⟨2026, 6, 1⟩, ⟨2026, 7, 1⟩] ⟨[], [], 0⟩).1
     (by decide) (by decide)
     (ensure_unfold_ok "org-1" "lease-1" "2026-05-01" none none (some 3) 1000 "PYG"
       (some "user-1") ⟨[], [], 0⟩ [⟨2026, 5, 1⟩, ⟨2026, 6, 1⟩, ⟨2026, 7, 1⟩]
       (by decide))⟩
